import Mathlib

/-!
# GFFutils ingestion core: a shallow embedding

This file embeds the ingestion pipeline of the `gffutils` repository
(`gffutils/create.py`, `gffutils/gffwriter.py`) in Lean 4 and settles the
frozen claims about it.

Modelling conventions, stated once:

* A `Feature` mirrors the record model of `feature.Feature`.  The module
  `feature.py` is not part of the provided sources, so the record layout is
  modelled from the spec's data-model table (§3): text fields are `String`,
  `start`/`end` are `Option Int` (`none` standing for `.`), `attributes` is an
  insertion-ordered association from keys to value lists.  The `bin` column is
  derived data that no claim mentions and is omitted.
* The sqlite store (`constants.SCHEMA` is not in the sources) is modelled from
  the spec (§4.7): `features` is a rowid-ordered list of records whose `id`
  column is a primary key (an `INSERT` of a present id fails with
  `IntegrityError`), `relations (parent, child, level)` is unique on the whole
  triple, and `INSERT OR IGNORE` keeps the first row.
* CPython's `dict` and `set` do not promise an enumeration order.  Attribute
  maps are modelled as insertion-ordered association lists.  The enumeration
  `list(set(old).union(new))` used by `_do_merge` is modelled as an explicit
  parameter `enum : List String → List String` constrained by `EnumOk`: it
  returns a duplicate-free list of exactly the elements of its input and its
  output depends only on the *set* of elements — which is precisely what a
  hash-set enumeration provides and all it provides.
-/
/-- The record model (modelled from the spec §3; `feature.py` is not among the
provided sources).  `fend` stands for the source's `end` field, which is a
keyword in Lean. -/
structure Feature where
  id : String
  seqid : String
  source : String
  featuretype : String
  start : Option Int
  fend : Option Int
  score : String
  strand : String
  frame : String
  attributes : List (String × List String)
  extra : List String
  deriving Repr, DecidableEq

/-- Attribute lookup.  The source's attribute containers behave like
`defaultdict(list)` (see the comment at `create.py:336`): a missing key reads
as the empty list. -/
def attrLookup : List (String × List String) → String → List String
  | [], _ => []
  | p :: rest, k => if p.1 == k then p.2 else attrLookup rest k

/-- `k in f.attributes` — true key membership, unlike `attrLookup` which
defaults. -/
def attrHasKey : List (String × List String) → String → Bool
  | [], _ => false
  | p :: rest, k => p.1 == k || attrHasKey rest k

/-- `del f.attributes[k]`. -/
def attrDelete : List (String × List String) → String →
    List (String × List String)
  | [], _ => []
  | p :: rest, k =>
    if p.1 == k then attrDelete rest k else p :: attrDelete rest k

/-- Overwrite every binding of `k` in place. -/
def attrReplace : List (String × List String) → String → List String →
    List (String × List String)
  | [], _, _ => []
  | p :: rest, k, v =>
    (if p.1 == k then (p.1, v) else p) :: attrReplace rest k v

/-- `attributes[k] = v`: overwrite in place when the key exists, append
otherwise. -/
def attrSet (m : List (String × List String)) (k : String) (v : List String) :
    List (String × List String) :=
  if attrHasKey m k then attrReplace m k v else m ++ [(k, v)]

/-- A relation edge `(parent, child, level)` (spec §3). -/
abbrev Edge := String × String × Nat

/-- Equality of `Except` results is decidable; used by concrete witnesses. -/
instance {ε α : Type} [DecidableEq ε] [DecidableEq α] :
    DecidableEq (Except ε α) := fun a b =>
  match a, b with
  | .ok x, .ok y =>
    if h : x = y then .isTrue (by rw [h]) else
      .isFalse (by intro hc; cases hc; exact h rfl)
  | .error x, .error y =>
    if h : x = y then .isTrue (by rw [h]) else
      .isFalse (by intro hc; cases hc; exact h rfl)
  | .ok _, .error _ => .isFalse (by intro hc; cases hc)
  | .error _, .ok _ => .isFalse (by intro hc; cases hc)

/-- The part of the store the claims inspect, plus the creator's in-memory
state.  `geneLog` is ghost instrumentation: it records every level-2 edge the
GTF first pass derives from the `gene_id` attribute (used to state claim C3's
exception); it never influences behaviour. -/
structure CreatorState where
  features : List Feature
  relations : List Edge
  autoincrements : List (String × Nat)
  geneLog : List (String × String)
  deriving Repr, DecidableEq

def CreatorState.init : CreatorState := ⟨[], [], [], []⟩

/-- Errors the Python code can raise along the modelled paths. -/
inductive PyError where
  /-- `ValueError("Duplicate ID ...")` from `_do_merge` under `error`. -/
  | duplicateID (id : String)
  /-- The `assert` in `_do_merge` under `merge`.  Its message interpolates,
  in order, `f.id`, the iterator's current item number and the current item
  text — the three `%s` slots of
  `"Same ID, but differing info for %s field. Line %s: \n%s"`. -/
  | mergeAssert (fieldSlot : String) (lineSlot : Nat) (itemSlot : String)
  /-- `ValueError("Invalid merge strategy ...")`. -/
  | invalidStrategy (s : String)
  /-- `sqlite3.IntegrityError` escaping uncaught (second insert under
  `create_unique` hitting an existing id). -/
  | integrityError (id : String)
  /-- `AttributeError` from `getattr(f, name)` with an unknown name. -/
  | attributeError (name : String)
  /-- `NameError` for an unbound local variable. -/
  | nameError (name : String)
  /-- `AttributeError: 'NoneType' object has no attribute 'attributes'`
  (GTF pass 2 dereferencing `_do_merge`'s `None` under `warning`). -/
  | noneAttributes
  deriving Repr, DecidableEq

/-- The rendered message of the `_do_merge` assertion, following the format
string at `create.py:167-171` exactly. -/
def mergeAssertMsg (fieldSlot : String) (lineSlot : Nat) (itemSlot : String) :
    String :=
  "Same ID, but differing info for " ++ fieldSlot ++ " field. Line " ++
    toString lineSlot ++ ": \n" ++ itemSlot

/-! ## ID synthesiser (`_DBCreator._id_handler`, `create.py:59-120`) -/
/-- `id_spec` kinds.  The callable kind is outside the shallow embedding (it
is an arbitrary Python function); no claim exercises it.  A dictionary value
that is a single string is normalised to a one-element list, as the source
does. -/
inductive IdSpec where
  | str (s : String)
  | keys (ks : List String)
  | byType (m : List (String × List String))
  deriving Repr, DecidableEq

/-- `_increment_featuretype_autoid`: bump the counter under `key` and render
`"%s_%s" % (key, n)`. -/
def bumpCounter : List (String × Nat) → String → Nat × List (String × Nat)
  | [], k => (1, [(k, 1)])
  | (k', n) :: rest, k =>
    if k' == k then (n + 1, (k', n + 1) :: rest)
    else
      let r := bumpCounter rest k
      (r.1, (k', n) :: r.2)

def incrementFeaturetypeAutoid (st : CreatorState) (key : String) :
    String × CreatorState :=
  let r := bumpCounter st.autoincrements key
  (key ++ "_" ++ toString r.1, { st with autoincrements := r.2 })

/-- The `(len(k) > 3) and (k[0] == ':') and (k[-1] == ':')` test, and the
extraction `k[1:-1]`. -/
def sentinelName (k : String) : Option String :=
  let cs := k.toList
  if 3 < cs.length ∧ cs.head? = some ':' ∧ cs.getLast? = some ':' then
    some (String.mk ((cs.drop 1).dropLast))
  else none

/-- Render an optional integer column the way `str()` shows the stored value;
the spec (§3) renders an absent numeric field as `.`. -/
def renderOptInt : Option Int → String
  | none => "."
  | some n => toString n

/-- `getattr(f, name)` for the standard GFF columns; any other name is an
`AttributeError`. -/
def getattrField (f : Feature) (name : String) : Option String :=
  if name = "seqid" then some f.seqid
  else if name = "source" then some f.source
  else if name = "featuretype" then some f.featuretype
  else if name = "start" then some (renderOptInt f.start)
  else if name = "end" then some (renderOptInt f.fend)
  else if name = "score" then some f.score
  else if name = "strand" then some f.strand
  else if name = "frame" then some f.frame
  else none

/-- The candidate loop of `_id_handler` (`create.py:97-120`): sentinel keys
return the column unconditionally; other keys read the attribute value list,
deleting the key and moving on when the list is empty; exhaustion falls back
to the per-featuretype auto-increment. -/
def tryIdKeys : List String → Feature → CreatorState →
    Except PyError (String × Feature × CreatorState)
  | [], f, st =>
    let r := incrementFeaturetypeAutoid st f.featuretype
    .ok (r.1, f, r.2)
  | k :: ks, f, st =>
    match sentinelName k with
    | some name =>
      match getattrField f name with
      | some v => .ok (v, f, st)
      | none => .error (.attributeError name)
    | none =>
      match attrLookup f.attributes k with
      | [] => tryIdKeys ks { f with attributes := attrDelete f.attributes k } st
      | v :: _ => .ok (v, f, st)

/-- `_DBCreator._id_handler`. -/
def idHandler (spec : IdSpec) (f : Feature) (st : CreatorState) :
    Except PyError (String × Feature × CreatorState) :=
  match spec with
  | .str s => tryIdKeys [s] f st
  | .keys ks => tryIdKeys ks f st
  | .byType m =>
    match m.find? (fun p => p.1 == f.featuretype) with
    | none =>
      let r := incrementFeaturetypeAutoid st f.featuretype
      .ok (r.1, f, r.2)
    | some p => tryIdKeys p.2 f st

/-! ## The store and the collision resolver -/
/-- Does a row with this id exist (`features.id` is the primary key)? -/
def hasId (fs : List Feature) (i : String) : Bool :=
  fs.any (fun g => g.id == i)

/-- `_get_feature`: fetch the stored row by id. -/
def getFeature (fs : List Feature) (i : String) : Option Feature :=
  fs.find? (fun g => g.id == i)

/-- `UPDATE features SET attributes = ? WHERE id = ?`. -/
def updateAttrs (fs : List Feature) (i : String)
    (attrs : List (String × List String)) : List Feature :=
  fs.map (fun g => if g.id == i then { g with attributes := attrs } else g)

/-- `INSERT OR IGNORE INTO relations`: uniqueness is on the whole triple, the
first row wins. -/
def insertRelIgnore (rels : List Edge) (e : Edge) : List Edge :=
  if e ∈ rels then rels else rels ++ [e]

def insertRelsIgnore (rels : List Edge) (es : List Edge) : List Edge :=
  es.foldl insertRelIgnore rels

/-- The modelling parameter for `list(set(old).union(new))`: a hash-set
enumeration returns each element of the set exactly once, in an order that is
a function of the set alone. -/
def EnumOk (enum : List String → List String) : Prop :=
  (∀ xs, (enum xs).toFinset = xs.toFinset) ∧
  (∀ xs, (enum xs).Nodup) ∧
  (∀ xs ys, xs.toFinset = ys.toFinset → enum xs = enum ys)

/-- A structural lexicographic comparison on strings.  (The standard library's
`String.ltb` is defined by well-founded recursion on byte iterators, which the
kernel cannot evaluate; concrete witnesses need an order it can.) -/
def lexLeb : List Char → List Char → Bool
  | [], _ => true
  | _ :: _, [] => false
  | a :: as, b :: bs =>
    if a < b then true else if b < a then false else lexLeb as bs

/-- The order `sortEnum` sorts by. -/
def strLe (a b : String) : Prop := lexLeb a.toList b.toList = true

instance : DecidableRel strLe := fun a b =>
  (inferInstance : Decidable (lexLeb a.toList b.toList = true))

/-- A concrete valid enumeration (dedup, then sort), used by witnesses. -/
def sortEnum (xs : List String) : List String :=
  xs.dedup.insertionSort strLe

/-- `list(set(old).union(new))` (`create.py:177`). -/
def mergeValues (enum : List String → List String)
    (old new : List String) : List String :=
  enum (old ++ new)

/-- The attribute-merging loop of `_do_merge` under `merge`
(`create.py:173-178`): iterate the incoming record's keys, overwriting each in
the stored map with the de-duplicated union. -/
def mergeAttrs (enum : List String → List String)
    (existing incoming : List (String × List String)) :
    List (String × List String) :=
  incoming.foldl
    (fun acc p => attrSet acc p.1 (mergeValues enum (attrLookup acc p.1) p.2))
    existing

/-- The field comparison loop of `_do_merge` under `merge`
(`create.py:162-171`): every field besides `attributes` (and `extra`, which is
not in `constants._gffkeys`) must match; the first mismatch trips the assert.
The field list follows the spec (§4.4) because `constants.py` is not among the
provided sources; the iteration order is the GFF column order. -/
def firstMismatch (a b : Feature) : Option String :=
  if a.seqid ≠ b.seqid then some "seqid"
  else if a.source ≠ b.source then some "source"
  else if a.featuretype ≠ b.featuretype then some "featuretype"
  else if a.start ≠ b.start then some "start"
  else if a.fend ≠ b.fend then some "fend"
  else if a.score ≠ b.score then some "score"
  else if a.strand ≠ b.strand then some "strand"
  else if a.frame ≠ b.frame then some "frame"
  else none

/-- `_DBCreator._do_merge` (`create.py:128-185`).  `lineno`/`item` stand for
`self.iterator.current_item_number` and `self.iterator.current_item`
(`iterators.py` is not among the provided sources; they are modelled as the
record's ordinal in the stream and its rendered line).  Returns `none` for the
`warning` strategy (Python's `None`), `some fixed` otherwise.  Note that the
assert's message interpolates `f.id` — not the name of the mismatched field —
into its first slot. -/
def doMerge (enum : List String → List String) (strategy : String)
    (fs : List Feature) (f : Feature) (lineno : Nat) (item : String)
    (st : CreatorState) :
    Except PyError (Option Feature × CreatorState) :=
  if strategy == "error" then .error (.duplicateID f.id)
  else if strategy == "warning" then .ok (none, st)
  else if strategy == "replace" then .ok (some f, st)
  else if strategy == "merge" then
    match getFeature fs f.id with
    | none => .error (.integrityError f.id)
    | some existing =>
      match firstMismatch existing f with
      | some _ => .error (.mergeAssert f.id lineno item)
      | none =>
        let merged := mergeAttrs enum existing.attributes f.attributes
        .ok (some { existing with attributes := merged }, st)
  else if strategy == "create_unique" then
    let r := incrementFeaturetypeAutoid st f.id
    .ok (some { f with id := r.1 }, r.2)
  else .error (.invalidStrategy strategy)

/-- A plain rendering of a record as a tab-separated line, standing for
`self.iterator.current_item` (the raw input line; modelled from the spec's
output wire format, §6, attributes and extra elided). -/
def featureLine (f : Feature) : String :=
  f.seqid ++ "\t" ++ f.source ++ "\t" ++ f.featuretype ++ "\t" ++
    renderOptInt f.start ++ "\t" ++ renderOptInt f.fend ++ "\t" ++
    f.score ++ "\t" ++ f.strand ++ "\t" ++ f.frame

/-! ## GFF ingestion driver (`_GFFDBCreator`, `create.py:264-422`) -/
/-- The insert-or-resolve block shared by both drivers
(`create.py:321-334` and `455-468`): try the insert; on primary-key conflict
run `_do_merge`, then update the stored attributes under `merge`/`replace`, or
re-insert under `create_unique` (an uncaught `IntegrityError` if the fresh id
is also taken).  Besides the new state it reports the record id the Python
local `f` is left holding — `_do_merge` mutates `f.id` in place under
`create_unique`, and the relation-emitting code that follows reads `f.id`. -/
def insertOrResolveId (enum : List String → List String) (strategy : String)
    (f : Feature) (lineno : Nat) (item : String) (st : CreatorState) :
    Except PyError (String × CreatorState) :=
  if ¬ hasId st.features f.id then
    .ok (f.id, { st with features := st.features ++ [f] })
  else
    match doMerge enum strategy st.features f lineno item st with
    | .error e => .error e
    | .ok (fixed?, st') =>
      if strategy == "merge" ∨ strategy == "replace" then
        match fixed? with
        | some fixed =>
          .ok (f.id, { st' with
            features := updateAttrs st'.features fixed.id fixed.attributes })
        | none => .ok (f.id, st')
      else if strategy == "create_unique" then
        match fixed? with
        | some fixed =>
          if hasId st'.features fixed.id then .error (.integrityError fixed.id)
          else .ok (fixed.id, { st' with features := st'.features ++ [fixed] })
        | none => .ok (f.id, st')
      else .ok (f.id, st')

/-- One GFF record (`_GFFDBCreator._populate_from_lines` loop body,
`create.py:301-343`): synthesise the id, insert or resolve, then emit a
level-1 edge for every `Parent` value — also when the record itself was
skipped or merged.  The edges use the id `f.id` holds *after* the resolve
block (a fresh one under `create_unique`). -/
def gffProcessLine (enum : List String → List String) (spec : IdSpec)
    (strategy : String) (lineno : Nat) (f : Feature) (st : CreatorState) :
    Except PyError CreatorState :=
  match idHandler spec f st with
  | .error e => .error e
  | .ok (rid, f', st₁) =>
    let f₂ := { f' with id := rid }
    match insertOrResolveId enum strategy f₂ lineno (featureLine f₂) st₁ with
    | .error e => .error e
    | .ok (fid, st₂) =>
      .ok { st₂ with
            relations := insertRelsIgnore st₂.relations
              ((attrLookup f₂.attributes "Parent").map
                (fun p => (p, fid, 1))) }

def gffPopulateAux (enum : List String → List String) (spec : IdSpec)
    (strategy : String) :
    Nat → List Feature → CreatorState → Except PyError CreatorState
  | _, [], st => .ok st
  | n, f :: rest, st =>
    match gffProcessLine enum spec strategy n f st with
    | .error e => .error e
    | .ok st' => gffPopulateAux enum spec strategy (n + 1) rest st'

/-- `_GFFDBCreator._populate_from_lines` (the live `ONEBYONE = True` path).
Verbose mode only writes progress to stderr (the terminal write re-binds `i`
to `0` first, so it never fails); it does not affect state or errors. -/
def gffPopulate (enum : List String → List String) (spec : IdSpec)
    (strategy : String) (_verbose : Bool) (lines : List Feature)
    (st : CreatorState) : Except PyError CreatorState :=
  gffPopulateAux enum spec strategy 1 lines st

/-- The grandchild scan of `_GFFDBCreator._update_relations`
(`create.py:396-404`): for every feature id `p`, pair it with every child of
every child of `p`.  Note the inner queries filter only on `parent`, not on
`level`. -/
def gffTwoHopPairs (fs : List Feature) (rels : List Edge) :
    List (String × String) :=
  fs.flatMap (fun p =>
    (rels.filter (fun e => e.1 == p.id)).flatMap (fun e1 =>
      (rels.filter (fun e2 => e2.1 == e1.2.1)).map (fun e2 => (p.id, e2.2.1))))

/-- `_GFFDBCreator._update_relations` (`create.py:374-422`): materialise the
two-hop pairs, then bulk `INSERT OR IGNORE` them as level-2 edges.  The index
rebuild touches no table contents. -/
def gffUpdateRelations (st : CreatorState) : CreatorState :=
  { st with
    relations := insertRelsIgnore st.relations
      ((gffTwoHopPairs st.features st.relations).map
        (fun pc => (pc.1, pc.2, 2))) }

/-- `create()` for the GFF driver: fresh tables, populate, update relations
(`create.py:235-245`; `_finalize` touches only `meta`/`directives`/
`autoincrements`). -/
def gffCreate (enum : List String → List String) (spec : IdSpec)
    (strategy : String) (verbose : Bool) (lines : List Feature) :
    Except PyError CreatorState :=
  match gffPopulate enum spec strategy verbose lines CreatorState.init with
  | .error e => .error e
  | .ok st => .ok (gffUpdateRelations st)

/-- `update()` for the GFF driver (`create.py:250-252`). -/
def gffUpdate (enum : List String → List String) (spec : IdSpec)
    (strategy : String) (verbose : Bool) (lines : List Feature)
    (st : CreatorState) : Except PyError CreatorState :=
  match gffPopulate enum spec strategy verbose lines st with
  | .error e => .error e
  | .ok st' => .ok (gffUpdateRelations st')

/-! ## GTF ingestion driver (`_GTFDBCreator`, `create.py:425-658`) -/
/-- One GTF record (`_GTFDBCreator._populate_from_lines` loop body,
`create.py:444-496`): insert or resolve, then derive edges from the
`transcript_key`/`gene_key` attributes.  The transcript branch indexes `[0]`
without a length guard (an `IndexError` on a present-but-empty value list);
the gene branch does guard.  Every level-2 edge also enters the ghost
`geneLog`. -/
def gtfProcessLine (enum : List String → List String) (spec : IdSpec)
    (strategy tk gk : String) (lineno : Nat) (f : Feature)
    (st : CreatorState) : Except PyError CreatorState :=
  match idHandler spec f st with
  | .error e => .error e
  | .ok (rid, f', st₁) =>
    let f₂ := { f' with id := rid }
    match insertOrResolveId enum strategy f₂ lineno (featureLine f₂) st₁ with
    | .error e => .error e
    | .ok (fid, st₂) =>
      let tRels : Option (String × List Edge) :=
        if attrHasKey f₂.attributes tk then
          match attrLookup f₂.attributes tk with
          | [] => none  -- IndexError; handled below
          | t :: _ => some (t, [(t, fid, 1)])
        else some ("", [])
      match tRels with
      | none => .error (.attributeError "IndexError")
      | some (t, rels₁) =>
        let parent? : Option String :=
          if attrHasKey f₂.attributes tk then some t else none
        let gRels : List Edge × List (String × String) :=
          if attrHasKey f₂.attributes gk then
            match attrLookup f₂.attributes gk with
            | [] => ([], [])
            | g :: _ =>
              ([(g, fid, 2)] ++
                (match parent? with
                 | some p => [(g, p, 1)]
                 | none => []),
               [(g, fid)])
          else ([], [])
        .ok { st₂ with
              relations := insertRelsIgnore st₂.relations (rels₁ ++ gRels.1),
              geneLog := st₂.geneLog ++ gRels.2 }

def gtfPopulateAux (enum : List String → List String) (spec : IdSpec)
    (strategy tk gk : String) :
    Nat → List Feature → CreatorState → Except PyError CreatorState
  | _, [], st => .ok st
  | n, f :: rest, st =>
    match gtfProcessLine enum spec strategy tk gk n f st with
    | .error e => .error e
    | .ok st' => gtfPopulateAux enum spec strategy tk gk (n + 1) rest st'

/-- `_GTFDBCreator._populate_from_lines` (`create.py:435-500`).  After the
loop, verbose mode prints `msg % i` — and `i`, the loop variable of
`enumerate(lines)`, is unbound when `lines` was empty, raising `NameError`
(the GFF twin re-binds `i = 0` first, with the comment
`# i is not set here! Bug?`). -/
def gtfPopulate (enum : List String → List String) (spec : IdSpec)
    (strategy tk gk : String) (verbose : Bool) (lines : List Feature)
    (st : CreatorState) : Except PyError CreatorState :=
  match gtfPopulateAux enum spec strategy tk gk 1 lines st with
  | .error e => .error e
  | .ok st' =>
    if verbose ∧ lines.isEmpty then .error (.nameError "i") else .ok st'

/-- Keep the first occurrence of each element (`SELECT DISTINCT`). -/
def dedupFirstAux {α : Type} [DecidableEq α] (seen : List α) :
    List α → List α
  | [] => []
  | x :: xs =>
    if x ∈ seen then dedupFirstAux seen xs
    else x :: dedupFirstAux (x :: seen) xs

def dedupFirst {α : Type} [DecidableEq α] (xs : List α) : List α :=
  dedupFirstAux [] xs

/-- The transcript query of `_GTFDBCreator._update_relations`
(`create.py:539-553`): distinct level-1 parents of `subfeature`-typed
features (the transcripts), joined back as children to find their level-1
parents (the genes), ordered by gene id. -/
def gtfTranscriptGenePairs (fs : List Feature) (rels : List Edge)
    (subf : String) : List (String × String) :=
  let firstlevel : List String :=
    dedupFirst ((rels.filter (fun e =>
      e.2.2 == 1 ∧
        (getFeature fs e.2.1).any (fun c => c.featuretype == subf))).map
          (fun e => e.1))
  let pairs : List (String × String) :=
    dedupFirst (firstlevel.flatMap (fun t =>
      (rels.filter (fun e => e.2.1 == t ∧ e.2.2 == 1)).map
        (fun e => (t, e.1))))
  pairs.insertionSort (fun a b => strLe a.2 b.2)

/-- The extent aggregation (`create.py:561-568` and `595-602`):
`subfeature`-typed children of `parent` at any relation level (the query does
not filter on `level`).  SQLite pairs the bare `strand`/`seqid` columns with
an arbitrary row of the group; the spec (§4.6) pins first-seen-wins, and the
model takes the first matching row. -/
def extentRows (fs : List Feature) (rels : List Edge)
    (parent subf : String) : List Feature :=
  fs.filter (fun c =>
    c.featuretype == subf ∧
      rels.any (fun e => e.1 == parent ∧ e.2.1 == c.id))

/-- A derived (synthesised) record, shared shape of the transcript and gene
records written at `create.py:582-616` and reconstructed by
`derived_feature_generator` (`create.py:622-638`): `score='.'`,
`source='gffutils_derived'`, `frame='.'`, `extra=[]`.  The scratch-file
serialisation round-trip is modelled as the identity on the record content. -/
def derivedRecord (fs : List Feature) (rels : List Edge)
    (parent subf featuretype : String)
    (attrs : List (String × List String)) : Feature :=
  let rows := extentRows fs rels parent subf
  { id := "",
    seqid := ((rows.head?).map Feature.seqid).getD "None",
    source := "gffutils_derived",
    featuretype := featuretype,
    start := (rows.filterMap Feature.start).min?,
    fend := (rows.filterMap Feature.fend).max?,
    score := ".",
    strand := ((rows.head?).map Feature.strand).getD "None",
    frame := ".",
    attributes := attrs,
    extra := [] }

/-- The derived-record stream (`create.py:558-638`): one transcript record per
`(transcript, gene)` pair, plus one gene record whenever the gene id differs
from the previous pair's (`last_gene_id`). -/
def gtfDerivedAux (fs : List Feature) (rels : List Edge)
    (tk gk subf : String) :
    List (String × String) → Option String → List Feature
  | [], _ => []
  | (t, g) :: rest, last =>
    derivedRecord fs rels t subf "transcript" [(tk, [t]), (gk, [g])] ::
      (if last ≠ some g then
        [derivedRecord fs rels g subf "gene" [(gk, [g])]]
       else []) ++
      gtfDerivedAux fs rels tk gk subf rest (some g)

def gtfDerivedRecords (fs : List Feature) (rels : List Edge)
    (tk gk subf : String) : List Feature :=
  gtfDerivedAux fs rels tk gk subf (gtfTranscriptGenePairs fs rels subf) none

/-- The insertion loop for derived records (`create.py:643-653`).  The
surrounding comment says `We should always do assume merge_strategy="merge"`,
but the code calls `self._do_merge(f)`, which dispatches on the
*user-supplied* strategy: `error` raises, and `warning` returns `None`, which
the unconditional attribute `UPDATE` then dereferences.  The iterator position
interpolated into a merge-assert here is stale; it is modelled as `0`. -/
def gtfInsertDerived (enum : List String → List String) (spec : IdSpec)
    (strategy : String) :
    List Feature → CreatorState → Except PyError CreatorState
  | [], st => .ok st
  | f :: rest, st =>
    match idHandler spec f st with
    | .error e => .error e
    | .ok (rid, f', st₁) =>
      let f₂ := { f' with id := rid }
      if ¬ hasId st₁.features f₂.id then
        gtfInsertDerived enum spec strategy rest
          { st₁ with features := st₁.features ++ [f₂] }
      else
        match doMerge enum strategy st₁.features f₂ 0 (featureLine f₂) st₁ with
        | .error e => .error e
        | .ok (fixed?, st₂) =>
          match fixed? with
          | none => .error .noneAttributes
          | some fixed =>
            gtfInsertDerived enum spec strategy rest
              { st₂ with
                features := updateAttrs st₂.features fixed.id fixed.attributes }

/-- `_GTFDBCreator._update_relations` (`create.py:502-658`): derive transcript
and gene records and replay them through the insert path.  No rows are added
to `relations`. -/
def gtfUpdateRelations (enum : List String → List String) (spec : IdSpec)
    (strategy tk gk subf : String) (st : CreatorState) :
    Except PyError CreatorState :=
  gtfInsertDerived enum spec strategy
    (gtfDerivedRecords st.features st.relations tk gk subf) st

/-- `create()` for the GTF driver. -/
def gtfCreate (enum : List String → List String) (spec : IdSpec)
    (strategy tk gk subf : String) (verbose : Bool) (lines : List Feature) :
    Except PyError CreatorState :=
  match gtfPopulate enum spec strategy tk gk verbose lines CreatorState.init with
  | .error e => .error e
  | .ok st => gtfUpdateRelations enum spec strategy tk gk subf st

def gtfSpecDefault : IdSpec :=
  .byType [("gene", ["gene_id"]), ("transcript", ["transcript_id"])]

def tLine : Feature :=
  { id := "", seqid := "chr1", source := "x", featuretype := "transcript",
    start := some 100, fend := some 150, score := ".", strand := "+",
    frame := ".", attributes := [("transcript_id", ["T1"]), ("gene_id", ["G1"])],
    extra := [] }

def eLine : Feature :=
  { id := "", seqid := "chr1", source := "x", featuretype := "exon",
    start := some 100, fend := some 150, score := ".", strand := "+",
    frame := ".", attributes := [("transcript_id", ["T1"]), ("gene_id", ["G1"])],
    extra := [] }

/-! ## Inputs for claim C5 — two records sharing an id, differing in `start` -/
def gLineStart1 : Feature :=
  { id := "", seqid := "chr1", source := "x", featuretype := "gene",
    start := some 1, fend := some 10, score := ".", strand := "+",
    frame := ".", attributes := [("ID", ["x"])], extra := [] }

def gLineStart2 : Feature :=
  { id := "", seqid := "chr1", source := "x", featuretype := "gene",
    start := some 2, fend := some 10, score := ".", strand := "+",
    frame := ".", attributes := [("ID", ["x"])], extra := [] }

def c4Stored : Feature :=
  { id := "x", seqid := "chr1", source := "s", featuretype := "gene",
    start := some 1, fend := some 10, score := ".", strand := "+",
    frame := ".", attributes := [("ID", ["x"]), ("Note", ["b"])],
    extra := [] }

def c4New : Feature :=
  { id := "x", seqid := "chr1", source := "s", featuretype := "gene",
    start := some 1, fend := some 10, score := ".", strand := "+",
    frame := ".", attributes := [("ID", ["x"]), ("Note", ["a"])],
    extra := [] }

def c4Merged : Feature :=
  { id := "x", seqid := "chr1", source := "s", featuretype := "gene",
    start := some 1, fend := some 10, score := ".", strand := "+",
    frame := ".", attributes := [("ID", ["x"]), ("Note", ["a", "b"])],
    extra := [] }

/-- **C7, as amended**: the id drawn from a candidate-key sequence, written
the way the code actually behaves.  A sentinel candidate always yields its
column's rendered value, even when that value is empty; a plain candidate
yields the first element of its value list whenever the list is non-empty,
even when that element is the empty string; an exhausted list falls back to
`"<featuretype>_<n>"` with `n` the counter's post-increment value. -/
def amendedKeysId (f : Feature) (counter : List (String × Nat)) :
    List String → Except PyError String
  | [] => .ok (f.featuretype ++ "_" ++
      toString (bumpCounter counter f.featuretype).1)
  | k :: rest =>
    match sentinelName k with
    | some name =>
      match getattrField f name with
      | some v => .ok v
      | none => .error (.attributeError name)
    | none =>
      match attrLookup f.attributes k with
      | [] => amendedKeysId f counter rest
      | v :: _ => .ok v

/-- **C7, the claim's own rule** (`the id is the first candidate that yields a
non-empty value`): a candidate whose value renders empty is passed over. -/
def claimKeysId (f : Feature) (counter : List (String × Nat)) :
    List String → String
  | [] => f.featuretype ++ "_" ++ toString (bumpCounter counter f.featuretype).1
  | k :: rest =>
    match sentinelName k with
    | some name =>
      match getattrField f name with
      | some v => if v ≠ "" then v else claimKeysId f counter rest
      | none => claimKeysId f counter rest
    | none =>
      match attrLookup f.attributes k with
      | [] => claimKeysId f counter rest
      | v :: _ => if v ≠ "" then v else claimKeysId f counter rest

def c7EmptyValue : Feature :=
  { id := "", seqid := "chr1", source := "s", featuretype := "gene",
    start := some 1, fend := some 10, score := ".", strand := "+",
    frame := ".", attributes := [("ID", [""]), ("Name", ["x"])],
    extra := [] }

def c7EmptySeqid : Feature :=
  { id := "", seqid := "", source := "s", featuretype := "gene",
    start := some 1, fend := some 10, score := ".", strand := "+",
    frame := ".", attributes := [("ID", ["x"])], extra := [] }

def c10Existing : Feature :=
  { id := "x", seqid := "chr1", source := "s", featuretype := "gene",
    start := some 1, fend := some 10, score := ".", strand := "+",
    frame := ".", attributes := [("ID", ["x"])], extra := [] }

def c10St : CreatorState := ⟨[c10Existing], [], [], []⟩

def c10New : Feature :=
  { id := "", seqid := "chr2", source := "s", featuretype := "gene",
    start := some 5, fend := some 20, score := ".", strand := "-",
    frame := ".", attributes := [("ID", ["x"]), ("Parent", ["P"])],
    extra := [] }

/-! ## The GTF `update()` driver and concrete ingestion states -/

/-- `update()` for the GTF driver (`create.py:250-252`). -/
def gtfUpdate (enum : List String → List String) (spec : IdSpec)
    (strategy tk gk subf : String) (verbose : Bool) (lines : List Feature)
    (st : CreatorState) : Except PyError CreatorState :=
  match gtfPopulate enum spec strategy tk gk verbose lines st with
  | .error e => .error e
  | .ok st' => gtfUpdateRelations enum spec strategy tk gk subf st'

def c8StG : CreatorState :=
  ⟨[{ gLineStart1 with id := "x" }], [], [], []⟩

def c8DerivedT1 : Feature :=
  { id := "T1", seqid := "chr1", source := "gffutils_derived",
    featuretype := "transcript", start := some 100, fend := some 150,
    score := ".", strand := "+", frame := ".",
    attributes := [("transcript_id", ["T1"]), ("gene_id", ["G1"])],
    extra := [] }

def c8DerivedG1 : Feature :=
  { id := "G1", seqid := "chr1", source := "gffutils_derived",
    featuretype := "gene", start := some 100, fend := some 150,
    score := ".", strand := "+", frame := ".",
    attributes := [("gene_id", ["G1"])], extra := [] }

def c8StT : CreatorState :=
  ⟨[{ eLine with id := "exon_1" }, c8DerivedT1, c8DerivedG1],
    [("T1", "exon_1", 1), ("G1", "exon_1", 2), ("G1", "T1", 1)],
    [("exon", 1)], [("G1", "exon_1")]⟩

def c3Gene : Feature :=
  { id := "", seqid := "chr1", source := "s", featuretype := "gene",
    start := some 1, fend := some 100, score := ".", strand := "+",
    frame := ".", attributes := [("ID", ["g1"])], extra := [] }

def c3MRNA : Feature :=
  { id := "", seqid := "chr1", source := "s", featuretype := "mRNA",
    start := some 1, fend := some 100, score := ".", strand := "+",
    frame := ".", attributes := [("ID", ["m1"]), ("Parent", ["g1"])],
    extra := [] }

def c3Exon : Feature :=
  { id := "", seqid := "chr1", source := "s", featuretype := "exon",
    start := some 1, fend := some 50, score := ".", strand := "+",
    frame := ".", attributes := [("ID", ["e1"]), ("Parent", ["m1"])],
    extra := [] }

def c3StG : CreatorState :=
  ⟨[{ c3Gene with id := "g1" }, { c3MRNA with id := "m1" },
      { c3Exon with id := "e1" }],
    [("g1", "m1", 1), ("m1", "e1", 1), ("g1", "e1", 2)], [], []⟩

def c3StT : CreatorState :=
  ⟨[{ eLine with id := "exon_1" }, c8DerivedT1, c8DerivedG1],
    [("T1", "exon_1", 1), ("G1", "exon_1", 2), ("G1", "T1", 1)],
    [("exon", 1)], [("G1", "exon_1")]⟩

/-! ## The writer and its read-side model (`gffwriter.py`, for claim C9)

The writer consumes a `FeatureDB` — the read-side query surface the spec
declares out of scope and fixes only at its interface (§1, §2.10).
`interface.py` is not among the provided sources, so the queries are modelled
from the spec: `db[i]` fetches by id; `db.children(i)` yields the features
related to `i` at any level, `level=1` restricts the level, `featuretype=`
filters the type; rows come back in table order.  `len(feature)` is the
1-based inclusive span from §3 (`feature.py` is likewise absent); absent
coordinates count as zero. -/
structure FeatureDB where
  features : List Feature
  relations : List Edge
  deriving Repr, DecidableEq

def dbGet (db : FeatureDB) (i : String) : Option Feature :=
  db.features.find? (fun g => g.id == i)

def childrenAll (db : FeatureDB) (pid : String) : List Feature :=
  db.features.filter (fun c =>
    db.relations.any (fun e => e.1 == pid ∧ e.2.1 == c.id))

def childrenLevel (db : FeatureDB) (pid : String) (lvl : Nat) : List Feature :=
  db.features.filter (fun c =>
    db.relations.any (fun e => e.1 == pid ∧ e.2.1 == c.id ∧ e.2.2 == lvl))

def childrenType (db : FeatureDB) (pid ft : String) : List Feature :=
  (childrenAll db pid).filter (fun c => c.featuretype == ft)

def featLen (f : Feature) : Int := f.fend.getD 0 - f.start.getD 0 + 1

/-- `GFFWriter.write_mRNA_children` (`gffwriter.py:146-173`): split the
mRNA's children into exons and the rest, write the exons sorted by start
(each re-fetched by id and followed by its own children,
`write_exon_children`), then the non-exonic children.  Python's `sorted` is
stable; the dict of exon starts is modelled in child order (its enumeration
order is unspecified, and the claim pins no tie order). -/
def writeMRNAChildren (db : FeatureDB) (mid : String) : List Feature :=
  let mRNA_children := childrenAll db mid
  let nonexonic := mRNA_children.filter (fun c => ¬(c.featuretype == "exon"))
  let exon_starts := (mRNA_children.filter
    (fun c => c.featuretype == "exon")).map (fun c => (c.id, c.start.getD 0))
  let sorted_exons := exon_starts.insertionSort (fun a b => a.2 ≤ b.2)
  sorted_exons.flatMap
    (fun pr => (dbGet db pr.1).toList ++ childrenAll db pr.1) ++ nonexonic

/-- `GFFWriter.write_gene_recs` (`gffwriter.py:88-143`): the gene record,
then each mRNA (re-fetched by id) in decreasing order of its exon-length sum
followed by its children via `write_mRNA_children`, then the gene's level-1
non-mRNA children. -/
def writeGeneRecs (db : FeatureDB) (gene_id : String) :
    Option (List Feature) :=
  match dbGet db gene_id with
  | none => none
  | some gene_rec =>
    let mRNAs := childrenType db gene_id "mRNA"
    let mRNA_lens := mRNAs.map
      (fun m => (m.id, ((childrenType db m.id "exon").map featLen).sum))
    let sorted_mRNAs := mRNA_lens.insertionSort (fun a b => b.2 ≤ a.2)
    some (gene_rec ::
      (sorted_mRNAs.flatMap
        (fun pr => (dbGet db pr.1).toList ++ writeMRNAChildren db pr.1) ++
      (childrenLevel db gene_id 1).filter
        (fun c => ¬(c.featuretype == "mRNA"))))

/-- The canonical ordering, written from the claim's words: the gene record
first; then each mRNA in decreasing order of the summed lengths of its exon
children, each mRNA record immediately followed by its exon children sorted
by ascending start (each exon followed by that exon's children), then the
mRNA's non-exonic children; finally the gene's non-mRNA level-1 children. -/
def canonicalGeneRecs (db : FeatureDB) (gene_id : String) :
    Option (List Feature) :=
  match dbGet db gene_id with
  | none => none
  | some gene_rec =>
    let exonLenSum := fun (mid : String) =>
      ((childrenType db mid "exon").map featLen).sum
    let sortedM := (childrenType db gene_id "mRNA").insertionSort
      (fun a b => exonLenSum b.id ≤ exonLenSum a.id)
    some (gene_rec ::
      (sortedM.flatMap (fun m =>
        m ::
          (((childrenAll db m.id).filter
              (fun c => c.featuretype == "exon")).insertionSort
                (fun a b => a.start.getD 0 ≤ b.start.getD 0)).flatMap
            (fun e => e :: childrenAll db e.id) ++
          (childrenAll db m.id).filter (fun c => ¬(c.featuretype == "exon"))) ++
      (childrenLevel db gene_id 1).filter
        (fun c => ¬(c.featuretype == "mRNA"))))

def c9G1 : Feature :=
  { id := "g1", seqid := "chr1", source := "s", featuretype := "gene",
    start := some 1, fend := some 30, score := ".", strand := "+",
    frame := ".", attributes := [("ID", ["g1"])], extra := [] }

def c9M1 : Feature :=
  { id := "m1", seqid := "chr1", source := "s", featuretype := "mRNA",
    start := some 1, fend := some 10, score := ".", strand := "+",
    frame := ".", attributes := [("ID", ["m1"]), ("Parent", ["g1"])],
    extra := [] }

def c9M2 : Feature :=
  { id := "m2", seqid := "chr1", source := "s", featuretype := "mRNA",
    start := some 5, fend := some 25, score := ".", strand := "+",
    frame := ".", attributes := [("ID", ["m2"]), ("Parent", ["g1"])],
    extra := [] }

def c9E1 : Feature :=
  { id := "e1", seqid := "chr1", source := "s", featuretype := "exon",
    start := some 1, fend := some 10, score := ".", strand := "+",
    frame := ".", attributes := [("ID", ["e1"]), ("Parent", ["m1"])],
    extra := [] }

def c9E2 : Feature :=
  { id := "e2", seqid := "chr1", source := "s", featuretype := "exon",
    start := some 5, fend := some 25, score := ".", strand := "+",
    frame := ".", attributes := [("ID", ["e2"]), ("Parent", ["m2"])],
    extra := [] }

def c9CD1 : Feature :=
  { id := "cd1", seqid := "chr1", source := "s", featuretype := "CDS",
    start := some 1, fend := some 9, score := ".", strand := "+",
    frame := "0", attributes := [("ID", ["cd1"]), ("Parent", ["m1"])],
    extra := [] }

def c9C1 : Feature :=
  { id := "c1", seqid := "chr1", source := "s", featuretype := "tRNA",
    start := some 26, fend := some 30, score := ".", strand := "+",
    frame := ".", attributes := [("ID", ["c1"]), ("Parent", ["g1"])],
    extra := [] }

def c9Db : FeatureDB :=
  ⟨[c9G1, c9M1, c9M2, c9E1, c9E2, c9CD1, c9C1],
    [("g1", "m1", 1), ("g1", "m2", 1), ("m1", "e1", 1), ("m2", "e2", 1),
      ("m1", "cd1", 1), ("g1", "c1", 1), ("g1", "e1", 2), ("g1", "e2", 2),
      ("g1", "cd1", 2)]⟩

/-! ## Pure id resolution and ingestion inputs (for claim C2) -/

/-- The pure part of the candidate loop: the id resolution when no
auto-increment is needed (and the record as left by the loop's deletions). -/
def resolveKeys : List String → Feature → Option (String × Feature)
  | [], _ => none
  | k :: ks, f =>
    match sentinelName k with
    | some name => (getattrField f name).map (fun v => (v, f))
    | none =>
      match attrLookup f.attributes k with
      | [] => resolveKeys ks { f with attributes := attrDelete f.attributes k }
      | v :: _ => some (v, f)

def specResolve (spec : IdSpec) (f : Feature) : Option (String × Feature) :=
  match spec with
  | .str s => resolveKeys [s] f
  | .keys ks => resolveKeys ks f
  | .byType m =>
    match m.find? (fun p => p.1 == f.featuretype) with
    | none => none
    | some p => resolveKeys p.2 f

def c2Auto : Feature :=
  { id := "", seqid := "chr1", source := "s", featuretype := "gene",
    start := some 1, fend := some 10, score := ".", strand := "+",
    frame := ".", attributes := [], extra := [] }

def c2St1 : CreatorState :=
  ⟨[{ c2Auto with id := "gene_1" }], [], [("gene", 1)], []⟩

def c2St2 : CreatorState :=
  ⟨[{ c2Auto with id := "gene_1" }, { c2Auto with id := "gene_2" }], [],
    [("gene", 2)], []⟩

/-- What a successful first ingest guarantees per input line: the id
resolves purely, the stored row under that id carries the same non-attribute
fields, attribute keys are duplicate-free on both sides, every incoming value
list is already absorbed by the stored one (value-set inclusion plus
enumeration fixpoint), and the line's `Parent` edges are present. -/
def GoodLine (enum : List String → List String) (spec : IdSpec)
    (st : CreatorState) (f : Feature) : Prop :=
  ∃ i f' r,
    specResolve spec f = some (i, f') ∧
    getFeature st.features i = some r ∧
    (r.attributes.map Prod.fst).Nodup ∧
    (f'.attributes.map Prod.fst).Nodup ∧
    firstMismatch r { f' with id := i } = none ∧
    (∀ kv ∈ f'.attributes, attrHasKey r.attributes kv.1 = true ∧
      kv.2.toFinset ⊆ (attrLookup r.attributes kv.1).toFinset ∧
      enum (attrLookup r.attributes kv.1) = attrLookup r.attributes kv.1) ∧
    (∀ p ∈ attrLookup f'.attributes "Parent", (p, i, 1) ∈ st.relations)

/-- Every stored row has duplicate-free attribute keys. -/
def RowsOk (st : CreatorState) : Prop :=
  ∀ g ∈ st.features, (g.attributes.map Prod.fst).Nodup

/-- How a stored row may change while later lines are absorbed: its eight
GFF columns are frozen, its attribute keys stay duplicate-free, its key set
and per-key value sets only grow, and enumeration fixpoints survive. -/
def RowEvol (enum : List String → List String) (r r' : Feature) : Prop :=
  r'.seqid = r.seqid ∧ r'.source = r.source ∧
  r'.featuretype = r.featuretype ∧ r'.start = r.start ∧
  r'.fend = r.fend ∧ r'.score = r.score ∧ r'.strand = r.strand ∧
  r'.frame = r.frame ∧
  ((r.attributes.map Prod.fst).Nodup → (r'.attributes.map Prod.fst).Nodup) ∧
  (∀ k, attrHasKey r.attributes k = true →
    attrHasKey r'.attributes k = true) ∧
  (∀ k, (attrLookup r.attributes k).toFinset ⊆
    (attrLookup r'.attributes k).toFinset) ∧
  (∀ k, enum (attrLookup r.attributes k) = attrLookup r.attributes k →
    enum (attrLookup r'.attributes k) = attrLookup r'.attributes k)

/-- State evolution across later processing: stored rows evolve per
`RowEvol`, relations only grow. -/
def Evol (enum : List String → List String) (st st' : CreatorState) : Prop :=
  (∀ i r, getFeature st.features i = some r →
    ∃ r', getFeature st'.features i = some r' ∧ RowEvol enum r r') ∧
  (∀ e, e ∈ st.relations → e ∈ st'.relations)

/-- No chain of three consecutive level-1 edges `a → b → c → d` exists in the
relation store (the quantifiers range over the stored edges, so the predicate
is decidable on concrete stores). -/
def NoThreePath (rels : List Edge) : Prop :=
  ∀ e1 ∈ rels, ∀ e2 ∈ rels, ∀ e3 ∈ rels,
    e1.2.2 = 1 → e2.2.2 = 1 → e3.2.2 = 1 →
    e1.2.1 = e2.1 → e2.2.1 = e3.1 → False

instance (rels : List Edge) : Decidable (NoThreePath rels) := by
  unfold NoThreePath
  infer_instance

def c2wG : Feature :=
  { id := "", seqid := "chr1", source := "s", featuretype := "gene",
    start := some 1, fend := some 100, score := ".", strand := "+",
    frame := ".", attributes := [("ID", ["g1"])], extra := [] }

def c2wM : Feature :=
  { id := "", seqid := "chr1", source := "s", featuretype := "mRNA",
    start := some 1, fend := some 50, score := ".", strand := "+",
    frame := ".", attributes := [("ID", ["m1"]), ("Parent", ["g1"])],
    extra := [] }

def c2wE : Feature :=
  { id := "", seqid := "chr1", source := "s", featuretype := "exon",
    start := some 1, fend := some 20, score := ".", strand := "+",
    frame := ".", attributes := [("ID", ["e1"]), ("Parent", ["m1"])],
    extra := [] }

def c2wLines : List Feature := [c2wG, c2wM, c2wE]

/-- The store the first `create()` builds over `c2wLines`. -/
def c2wSt1 : CreatorState :=
  match gffCreate sortEnum (.str "ID") "merge" false c2wLines with
  | .ok s => s
  | .error _ => CreatorState.init

/-! ## The string order behind `sortEnum` -/

theorem lexLeb_total (a : List Char) : ∀ b, lexLeb a b = true ∨ lexLeb b a = true := by
  induction a with
  | nil => intro b; left; cases b <;> simp [lexLeb]
  | cons x xs ih =>
    intro b
    cases b with
    | nil => right; simp [lexLeb]
    | cons y ys =>
      simp only [lexLeb]
      rcases lt_trichotomy x y with h | h | h
      · left; simp [h]
      · subst h; simpa [lt_irrefl] using ih ys
      · right; simp [h, not_lt_of_gt h]

theorem lexLeb_trans (a : List Char) :
    ∀ b c, lexLeb a b = true → lexLeb b c = true → lexLeb a c = true := by
  induction a with
  | nil => intro b c _ _; cases c <;> simp [lexLeb]
  | cons x xs ih =>
    intro b c hab hbc
    cases b with
    | nil => simp [lexLeb] at hab
    | cons y ys =>
      cases c with
      | nil => simp [lexLeb] at hbc
      | cons z zs =>
        simp only [lexLeb] at hab hbc ⊢
        by_cases hxy : x < y
        · by_cases hyz : y < z
          · simp [lt_trans hxy hyz]
          · by_cases hzy : z < y
            · simp [hyz, hzy] at hbc
            · have : y = z := le_antisymm (not_lt.mp hzy) (not_lt.mp hyz)
              subst this; simp [hxy]
        · by_cases hyx : y < x
          · simp [hxy, hyx] at hab
          · have : x = y := le_antisymm (not_lt.mp hyx) (not_lt.mp hxy)
            subst this
            by_cases hyz : x < z
            · simp [hyz]
            · by_cases hzy : z < x
              · simp [hyz, hzy] at hbc
              · simp only [hxy, if_neg, hyz, hzy, if_false] at hab hbc ⊢
                exact ih ys zs hab hbc

theorem lexLeb_antisymm (a : List Char) :
    ∀ b, lexLeb a b = true → lexLeb b a = true → a = b := by
  induction a with
  | nil => intro b _ hba; cases b with
    | nil => rfl
    | cons y ys => simp [lexLeb] at hba
  | cons x xs ih =>
    intro b hab hba
    cases b with
    | nil => simp [lexLeb] at hab
    | cons y ys =>
      simp only [lexLeb] at hab hba
      by_cases hxy : x < y
      · simp [not_lt_of_gt hxy, hxy] at hba
      · by_cases hyx : y < x
        · simp [hxy, hyx] at hab
        · have hx : x = y := le_antisymm (not_lt.mp hyx) (not_lt.mp hxy)
          subst hx
          simp only [lt_irrefl, if_false, if_neg] at hab hba
          rw [ih ys hab hba]

theorem strLe_string_ext {a b : String} (h : a.toList = b.toList) : a = b := by
  cases a; cases b
  simp only [String.toList] at h
  rw [h]

instance : IsTotal String strLe := ⟨fun _ _ => lexLeb_total _ _⟩

instance : IsTrans String strLe := ⟨fun _ _ _ => lexLeb_trans _ _ _⟩

instance : IsAntisymm String strLe :=
  ⟨fun _ _ h₁ h₂ => strLe_string_ext (lexLeb_antisymm _ _ h₁ h₂)⟩

theorem sortEnum_toFinset (xs : List String) :
    (sortEnum xs).toFinset = xs.toFinset := by
  have h := List.perm_insertionSort strLe xs.dedup
  rw [sortEnum, List.toFinset_eq_of_perm _ _ h]
  ext a
  simp [List.mem_toFinset, List.mem_dedup]

theorem sortEnum_nodup (xs : List String) : (sortEnum xs).Nodup :=
  ((List.perm_insertionSort strLe xs.dedup).nodup_iff).mpr
    xs.nodup_dedup

theorem enumOk_sortEnum : EnumOk sortEnum := by
  refine ⟨sortEnum_toFinset, sortEnum_nodup, ?_⟩
  intro xs ys h
  have hperm : List.Perm (sortEnum xs) (sortEnum ys) := by
    apply List.perm_of_nodup_nodup_toFinset_eq (sortEnum_nodup xs)
      (sortEnum_nodup ys)
    rw [sortEnum_toFinset, sortEnum_toFinset, h]
  exact List.eq_of_perm_of_sorted hperm
    (List.sorted_insertionSort _ _) (List.sorted_insertionSort _ _)

/-! ## Claim C1 — the GTF derived-record insertion and the user's policy

The derived-record loop (`create.py:643-653`) is prefixed by the comment `We
should always do assume merge_strategy="merge", since these derived features
take into account the current state of the db`, and the spec repeats this —
but the loop calls `self._do_merge(f)`, which dispatches on the user-supplied
`merge_strategy`.  Under `error` a colliding derived record therefore raises
the duplicate-id error the claim says cannot happen. -/
/-- **C1** (code bug).  A GTF input whose explicit `transcript` record shares
its id with the transcript synthesised in pass 2 makes `create()` under the
user policy `error` raise `Duplicate ID`: the derived insertion is *not*
pinned to `merge`, contradicting both the claim and the source's own comment.
-/
theorem C1_gtf_derived_insert_not_pinned_to_merge :
    gtfCreate sortEnum gtfSpecDefault "error" "transcript_id" "gene_id" "exon"
      false [tLine, eLine] = .error (.duplicateID "T1") := by decide

/-! ## Claim C6 — empty input -/
/-- **C6** (code bug).  On the empty input the GFF driver is a silent no-op in
every mode, and so is the GTF driver with verbose off — but the GTF driver
with `verbose=True` raises a `NameError`: `_GTFDBCreator._populate_from_lines`
ends with `sys.stderr.write(msg % i)` (`create.py:499-500`) and the loop
variable `i` of `enumerate(lines)` was never bound.  (The GFF twin re-binds
`i = 0` first, next to the comment `# i is not set here! Bug?`.) -/
theorem C6_gtf_verbose_empty_input_name_error :
    gtfCreate sortEnum gtfSpecDefault "merge" "transcript_id" "gene_id" "exon"
        true [] = .error (.nameError "i") ∧
      gtfCreate sortEnum gtfSpecDefault "merge" "transcript_id" "gene_id"
        "exon" false [] = .ok CreatorState.init ∧
      gffCreate sortEnum (.str "ID") "merge" true [] = .ok CreatorState.init ∧
      gffCreate sortEnum (.str "ID") "merge" false [] =
        .ok CreatorState.init := by decide

/-! ## Claim C5 — the merge-conflict payload

The assert at `create.py:166-171` formats
`"Same ID, but differing info for %s field. Line %s: \n%s"` with the
arguments `(f.id, current_item_number, current_item)`: the record id lands in
the slot the text reserves for the *field name*, and the name of the
mismatched field appears nowhere in the payload. -/

set_option maxRecDepth 4000 in
/-- **C5** (code bug).  Merging two records with id `x` that differ only in
`start` raises the merge-conflict error; the field that differs is `start`,
yet the payload is `(f.id, line number, line text)` and its rendered message
never mentions `start` — the id `x` sits in the field-name slot.  The claim
(and the format string itself) say the mismatched field name is carried. -/
theorem C5_merge_conflict_payload_lacks_field_name :
    gffCreate sortEnum (.str "ID") "merge" false [gLineStart1, gLineStart2] =
        .error (.mergeAssert "x" 2
          (featureLine { gLineStart2 with id := "x" })) ∧
      firstMismatch { gLineStart1 with id := "x" }
        { gLineStart2 with id := "x" } = some "start" ∧
      ¬ ("start".toList <:+:
          (mergeAssertMsg "x" 2
            (featureLine { gLineStart2 with id := "x" })).toList) ∧
      ("x".toList <:+:
        (mergeAssertMsg "x" 2
          (featureLine { gLineStart2 with id := "x" })).toList) := by decide

/-! ## Claim C4 — what `merge` does to attribute value lists -/
theorem attrHasKey_iff_mem (m : List (String × List String)) (k : String) :
    attrHasKey m k = true ↔ k ∈ m.map Prod.fst := by
  induction m with
  | nil => simp [attrHasKey]
  | cons p rest ih =>
    simp only [attrHasKey, Bool.or_eq_true, beq_iff_eq, List.map_cons,
      List.mem_cons, ih]
    constructor
    · rintro (h | h)
      · exact Or.inl h.symm
      · exact Or.inr h
    · rintro (h | h)
      · exact Or.inl h.symm
      · exact Or.inr h

theorem attrLookup_attrReplace_self (m : List (String × List String))
    (k : String) (v : List String) (h : attrHasKey m k = true) :
    attrLookup (attrReplace m k v) k = v := by
  induction m with
  | nil => simp [attrHasKey] at h
  | cons p rest ih =>
    simp only [attrHasKey, Bool.or_eq_true] at h
    by_cases hp : (p.1 == k) = true
    · simp [attrReplace, attrLookup, hp]
    · have h' := h.resolve_left hp
      simp only [attrReplace, hp, Bool.false_eq_true, if_false]
      simp only [attrLookup, hp, Bool.false_eq_true, if_false]
      exact ih h'

theorem attrLookup_attrReplace_ne (m : List (String × List String))
    (k k' : String) (v : List String) (h : k' ≠ k) :
    attrLookup (attrReplace m k v) k' = attrLookup m k' := by
  induction m with
  | nil => simp [attrReplace, attrLookup]
  | cons p rest ih =>
    by_cases hp : (p.1 == k) = true
    · have hpk : p.1 = k := by simpa using hp
      have hp' : (p.1 == k') = false := by
        simp only [beq_eq_false_iff_ne, ne_eq]
        rw [hpk]
        exact fun hc => h hc.symm
      simp only [attrReplace, hp, if_true, attrLookup, hp']
      simp only [Bool.false_eq_true, if_false]
      exact ih
    · simp only [attrReplace, hp, Bool.false_eq_true, if_false, attrLookup]
      by_cases hq : (p.1 == k') = true
      · simp [hq]
      · simp only [hq, Bool.false_eq_true, if_false]
        exact ih

theorem attrLookup_append_single_self (m : List (String × List String))
    (k : String) (v : List String) (h : attrHasKey m k = false) :
    attrLookup (m ++ [(k, v)]) k = v := by
  induction m with
  | nil => simp [attrLookup]
  | cons p rest ih =>
    simp only [attrHasKey, Bool.or_eq_false_iff] at h
    simp only [List.cons_append, attrLookup, h.1, Bool.false_eq_true, if_false]
    exact ih h.2

theorem attrLookup_append_single_ne (m : List (String × List String))
    (k k' : String) (v : List String) (h : k' ≠ k) :
    attrLookup (m ++ [(k, v)]) k' = attrLookup m k' := by
  induction m with
  | nil =>
    have : (k == k') = false := by
      simp only [beq_eq_false_iff_ne, ne_eq]
      exact fun hc => h hc.symm
    simp [attrLookup, this]
  | cons p rest ih =>
    simp only [List.cons_append, attrLookup]
    by_cases hq : (p.1 == k') = true
    · simp [hq]
    · simp only [hq, Bool.false_eq_true, if_false]
      exact ih

theorem attrLookup_attrSet_self (m : List (String × List String))
    (k : String) (v : List String) : attrLookup (attrSet m k v) k = v := by
  unfold attrSet
  by_cases h : attrHasKey m k = true
  · simp only [h, if_true]
    exact attrLookup_attrReplace_self m k v h
  · simp only [h, Bool.false_eq_true, if_false]
    exact attrLookup_append_single_self m k v (by simpa using h)

theorem attrLookup_attrSet_ne (m : List (String × List String))
    (k k' : String) (v : List String) (h : k' ≠ k) :
    attrLookup (attrSet m k v) k' = attrLookup m k' := by
  unfold attrSet
  by_cases hk : attrHasKey m k = true
  · simp only [hk, if_true]
    exact attrLookup_attrReplace_ne m k k' v h
  · simp only [hk, Bool.false_eq_true, if_false]
    exact attrLookup_append_single_ne m k k' v h

/-- `mergeValues` under a lawful enumeration: the result is the de-duplicated
union of the two value sets. -/
theorem mergeValues_spec (enum : List String → List String) (hE : EnumOk enum)
    (old new : List String) :
    (mergeValues enum old new).toFinset = old.toFinset ∪ new.toFinset ∧
      (mergeValues enum old new).Nodup := by
  constructor
  · rw [mergeValues, hE.1, List.toFinset_append]
  · exact hE.2.1 _

/-- The merge loop, key by key: a key of the incoming record ends up with the
de-duplicated union of the two value lists; any other key is untouched.
The key-distinctness hypothesis is the fact that a Python `dict` cannot
repeat a key. -/
theorem attrLookup_mergeAttrs (enum : List String → List String)
    (incoming : List (String × List String)) :
    ∀ (acc : List (String × List String)),
      (incoming.map Prod.fst).Nodup →
      ∀ k, attrLookup (mergeAttrs enum acc incoming) k =
        if attrHasKey incoming k then
          mergeValues enum (attrLookup acc k) (attrLookup incoming k)
        else attrLookup acc k := by
  induction incoming with
  | nil =>
    intro acc _ k
    simp [mergeAttrs, attrHasKey]
  | cons p rest ih =>
    intro acc hnd k
    simp only [List.map_cons, List.nodup_cons] at hnd
    have hstep : mergeAttrs enum acc (p :: rest) =
        mergeAttrs enum
          (attrSet acc p.1 (mergeValues enum (attrLookup acc p.1) p.2))
          rest := by
      simp [mergeAttrs]
    rw [hstep, ih _ hnd.2 k]
    by_cases hk : (p.1 == k) = true
    · have hkeq : p.1 = k := by simpa using hk
      have hknotin : attrHasKey rest k = false := by
        rw [← Bool.not_eq_true, attrHasKey_iff_mem]
        rw [← hkeq]
        exact hnd.1
      rw [hknotin]
      simp only [Bool.false_eq_true, if_false]
      rw [← hkeq, attrLookup_attrSet_self]
      simp [attrHasKey, attrLookup]
    · have hkne : k ≠ p.1 := by
        intro hc
        rw [hc] at hk
        simp at hk
      rw [attrLookup_attrSet_ne _ _ _ _ hkne]
      simp only [attrHasKey, hk, Bool.false_or]
      have h3 : attrLookup (p :: rest) k = attrLookup rest k := by
        simp [attrLookup, hk]
      rw [h3]

/-- **C4, counterexample.**  The claim pins the order of the de-duplicated
union: existing values first, new values second.  But the order of
`list(set(old).union(new))` is a function of the element *set* alone, and no
such enumeration realises existing-first order at both `(["a"], ["b"])` and
`(["b"], ["a"])` — the two calls enumerate the same set. -/
theorem C4_counterexample_no_enum_preserves_order :
    ¬ ∃ enum : List String → List String, EnumOk enum ∧
        mergeValues enum ["a"] ["b"] = ["a", "b"] ∧
        mergeValues enum ["b"] ["a"] = ["b", "a"] := by
  rintro ⟨enum, ⟨_, _, hcanon⟩, h1, h2⟩
  have hsets : ((["a"] ++ ["b"]) : List String).toFinset =
      ((["b"] ++ ["a"]) : List String).toFinset := by decide
  have heq : enum (["a"] ++ ["b"]) = enum (["b"] ++ ["a"]) := hcanon _ _ hsets
  rw [mergeValues] at h1 h2
  rw [h1, h2] at heq
  have : ("a" : String) = "b" := List.head_eq_of_cons_eq heq
  exact absurd this (by decide)

/-- **C4, amended.**  Under policy `merge`, each key of the incoming record is
re-bound to the de-duplicated union of the stored and the incoming value
lists — the value *set* is exactly the union and the merged list repeats no
value — while keys the incoming record lacks keep their stored list.  The
*order* of a merged list is whatever the set enumeration yields; it is not in
general existing-values-first, new-values-second. -/
theorem C4_merge_unions_value_sets (enum : List String → List String)
    (fs : List Feature) (f existing g : Feature)
    (lineno : Nat) (item : String) (st st' : CreatorState)
    (hE : EnumOk enum)
    (hnd : (f.attributes.map Prod.fst).Nodup)
    (hex : getFeature fs f.id = some existing)
    (hok : doMerge enum "merge" fs f lineno item st = .ok (some g, st')) :
    ∀ k,
      (attrHasKey f.attributes k = true →
        (attrLookup g.attributes k).toFinset =
          (attrLookup existing.attributes k).toFinset ∪
            (attrLookup f.attributes k).toFinset ∧
        (attrLookup g.attributes k).Nodup) ∧
      (attrHasKey f.attributes k = false →
        attrLookup g.attributes k = attrLookup existing.attributes k) := by
  intro k
  unfold doMerge at hok
  simp only [show (("merge" : String) == "error") = false from rfl,
    show (("merge" : String) == "warning") = false from rfl,
    show (("merge" : String) == "replace") = false from rfl,
    show (("merge" : String) == "merge") = true from rfl,
    Bool.false_eq_true, if_false, if_true, hex] at hok
  cases hmm : firstMismatch existing f with
  | some fld => rw [hmm] at hok; cases hok
  | none =>
    rw [hmm] at hok
    have hg : g = { existing with
        attributes := mergeAttrs enum existing.attributes f.attributes } := by
      cases hok; rfl
    subst hg
    constructor
    · intro hkey
      have h := attrLookup_mergeAttrs enum f.attributes existing.attributes
        hnd k
      simp only [hkey, if_true] at h
      simp only [h]
      exact mergeValues_spec enum hE _ _
    · intro hkey
      have h := attrLookup_mergeAttrs enum f.attributes existing.attributes
        hnd k
      simp only [hkey, Bool.false_eq_true, if_false] at h
      simpa using h

/-- Witness for `C4_merge_unions_value_sets` at a concrete merge: stored
`Note=["b"]` merged with incoming `Note=["a"]` yields the union `{a, b}`
without duplicates (here enumerated as `["a", "b"]` by `sortEnum`). -/
theorem C4_merge_unions_value_sets_witness :
    ((c4New.attributes.map Prod.fst).Nodup ∧
      getFeature [c4Stored] c4New.id = some c4Stored ∧
      doMerge sortEnum "merge" [c4Stored] c4New 2 "ln" CreatorState.init =
        .ok (some c4Merged, CreatorState.init)) ∧
    ((attrHasKey c4New.attributes "Note" = true →
        (attrLookup c4Merged.attributes "Note").toFinset =
          (attrLookup c4Stored.attributes "Note").toFinset ∪
            (attrLookup c4New.attributes "Note").toFinset ∧
        (attrLookup c4Merged.attributes "Note").Nodup) ∧
      (attrHasKey c4New.attributes "Note" = false →
        attrLookup c4Merged.attributes "Note" =
          attrLookup c4Stored.attributes "Note")) :=
  ⟨⟨by decide, by decide, by decide⟩,
    C4_merge_unions_value_sets sortEnum [c4Stored] c4New c4Stored c4Merged
      2 "ln" CreatorState.init CreatorState.init enumOk_sortEnum
      (by decide) (by decide) (by decide) "Note"⟩

/-! ## Claim C7 — the id synthesiser on a sequence of candidate keys -/
theorem attrLookup_attrDelete_self (m : List (String × List String))
    (k : String) : attrLookup (attrDelete m k) k = [] := by
  induction m with
  | nil => simp [attrDelete, attrLookup]
  | cons p rest ih =>
    by_cases hp : (p.1 == k) = true
    · simp only [attrDelete, hp, if_true]
      exact ih
    · simp only [attrDelete, hp, Bool.false_eq_true, if_false, attrLookup]
      exact ih

theorem attrLookup_attrDelete_ne (m : List (String × List String))
    (k k' : String) (h : k' ≠ k) :
    attrLookup (attrDelete m k) k' = attrLookup m k' := by
  induction m with
  | nil => simp [attrDelete]
  | cons p rest ih =>
    by_cases hp : (p.1 == k) = true
    · have hpk : p.1 = k := by simpa using hp
      have hp' : (p.1 == k') = false := by
        simp only [beq_eq_false_iff_ne, ne_eq, hpk]
        exact fun hc => h hc.symm
      simp only [attrDelete, hp, if_true, attrLookup, hp', Bool.false_eq_true,
        if_false]
      exact ih
    · simp only [attrDelete, hp, Bool.false_eq_true, if_false, attrLookup]
      by_cases hq : (p.1 == k') = true
      · simp [hq]
      · simp only [hq, Bool.false_eq_true, if_false]
        exact ih

/-- Deleting a key whose lookup was already empty changes no lookup. -/
theorem attrLookup_attrDelete_of_empty (m : List (String × List String))
    (k : String) (h : attrLookup m k = []) (k' : String) :
    attrLookup (attrDelete m k) k' = attrLookup m k' := by
  by_cases hk : k' = k
  · rw [hk, attrLookup_attrDelete_self, h]
  · exact attrLookup_attrDelete_ne m k k' hk

/-- **C7, counterexample.**  The code returns the *first value present*, not
the first non-empty value: with `id_spec = ["ID", "Name"]` and `ID=[""]` it
returns the empty string where the claim's rule picks `"x"` from `Name`; with
`id_spec = [":seqid:", "ID"]` and an empty `seqid` column it returns the empty
column where the claim's rule picks `"x"` from `ID`. -/
theorem C7_counterexample_empty_value_wins :
    (idHandler (.keys ["ID", "Name"]) c7EmptyValue CreatorState.init =
        .ok ("", c7EmptyValue, CreatorState.init) ∧
      claimKeysId c7EmptyValue [] ["ID", "Name"] = "x") ∧
    (idHandler (.keys [":seqid:", "ID"]) c7EmptySeqid CreatorState.init =
        .ok ("", c7EmptySeqid, CreatorState.init) ∧
      claimKeysId c7EmptySeqid [] [":seqid:", "ID"] = "x") ∧
    ("" : String) ≠ "x" := by decide

/-- `getattrField` reads no attributes. -/
theorem getattrField_attrs (f : Feature) (m : List (String × List String))
    (name : String) :
    getattrField { f with attributes := m } name = getattrField f name := rfl

theorem amendedKeysId_congr (f : Feature) (m : List (String × List String))
    (c : List (String × Nat))
    (h : ∀ k, attrLookup m k = attrLookup f.attributes k) :
    ∀ ks, amendedKeysId { f with attributes := m } c ks =
      amendedKeysId f c ks := by
  intro ks
  induction ks with
  | nil => rfl
  | cons k rest ih =>
    unfold amendedKeysId
    cases hs : sentinelName k with
    | some name =>
      dsimp only
      rw [getattrField_attrs]
    | none =>
      dsimp only
      show (match attrLookup m k with
        | [] => amendedKeysId { f with attributes := m } c rest
        | v :: _ => .ok v) = _
      rw [h k]
      cases attrLookup f.attributes k with
      | nil => exact ih
      | cons v vs => rfl

/-- **C7, amended (theorem).**  On a sequence of candidate keys the id the
code synthesises follows the amended rule exactly: sentinels always yield
(their value may be empty), plain keys yield the head of a non-empty value
list (which may be the empty string), and exhaustion yields
`"<featuretype>_<n>"` with `n` the post-increment counter value.  (The
deletion of empty-valued keys the code performs on the way does not affect
the outcome.) -/
theorem C7_keys_id_follows_amended_rule (ks : List String) :
    ∀ (f : Feature) (st : CreatorState),
      (tryIdKeys ks f st).map (fun r => r.1) =
        amendedKeysId f st.autoincrements ks := by
  induction ks with
  | nil =>
    intro f st
    simp [tryIdKeys, amendedKeysId, incrementFeaturetypeAutoid, Except.map]
  | cons k rest ih =>
    intro f st
    unfold tryIdKeys amendedKeysId
    cases hs : sentinelName k with
    | some name =>
      cases hg : getattrField f name with
      | some v => simp [hg, Except.map]
      | none => simp [hg, Except.map]
    | none =>
      cases hl : attrLookup f.attributes k with
      | nil =>
        dsimp only
        rw [ih]
        exact amendedKeysId_congr f (attrDelete f.attributes k)
          st.autoincrements
          (attrLookup_attrDelete_of_empty f.attributes k hl) rest
      | cons v vs => simp [Except.map]

/-! ## State-machine lemmas shared by the remaining claims -/
theorem hasId_iff_mem (fs : List Feature) (i : String) :
    hasId fs i = true ↔ i ∈ fs.map Feature.id := by
  unfold hasId
  rw [List.any_eq_true]
  constructor
  · rintro ⟨g, hg, hgi⟩
    exact List.mem_map.mpr ⟨g, hg, by simpa using hgi⟩
  · rintro hm
    rcases List.mem_map.mp hm with ⟨g, hg, hgi⟩
    exact ⟨g, hg, by simp [hgi]⟩

theorem updateAttrs_map_id (fs : List Feature) (i : String)
    (a : List (String × List String)) :
    (updateAttrs fs i a).map Feature.id = fs.map Feature.id := by
  unfold updateAttrs
  induction fs with
  | nil => rfl
  | cons g rest ih =>
    simp only [List.map_cons]
    rw [ih]
    congr 1
    split <;> rfl

theorem mem_insertRelIgnore (rels : List Edge) (e x : Edge) :
    x ∈ insertRelIgnore rels e ↔ x ∈ rels ∨ x = e := by
  unfold insertRelIgnore
  by_cases h : e ∈ rels
  · simp only [h, if_true]
    constructor
    · exact Or.inl
    · rintro (hx | rfl)
      · exact hx
      · exact h
  · simp [h]

theorem mem_insertRelsIgnore (es : List Edge) :
    ∀ (rels : List Edge) (x : Edge),
      x ∈ insertRelsIgnore rels es ↔ x ∈ rels ∨ x ∈ es := by
  induction es with
  | nil => intro rels x; simp [insertRelsIgnore]
  | cons e rest ih =>
    intro rels x
    show x ∈ insertRelsIgnore (insertRelIgnore rels e) rest ↔ _
    rw [ih, mem_insertRelIgnore]
    simp only [List.mem_cons]
    tauto

theorem tryIdKeys_state (ks : List String) :
    ∀ (f : Feature) (st : CreatorState) (r : String × Feature × CreatorState),
      tryIdKeys ks f st = .ok r →
        r.2.2.features = st.features ∧ r.2.2.relations = st.relations ∧
          r.2.2.geneLog = st.geneLog := by
  induction ks with
  | nil =>
    intro f st r h
    simp only [tryIdKeys] at h
    cases h
    exact ⟨rfl, rfl, rfl⟩
  | cons k rest ih =>
    intro f st r h
    simp only [tryIdKeys] at h
    cases hs : sentinelName k with
    | some name =>
      rw [hs] at h
      dsimp only at h
      cases hg : getattrField f name with
      | some v => rw [hg] at h; cases h; exact ⟨rfl, rfl, rfl⟩
      | none => rw [hg] at h; cases h
    | none =>
      rw [hs] at h
      dsimp only at h
      cases hl : attrLookup f.attributes k with
      | nil => rw [hl] at h; exact ih _ _ _ h
      | cons v vs => rw [hl] at h; cases h; exact ⟨rfl, rfl, rfl⟩

theorem idHandler_state (spec : IdSpec) (f : Feature) (st : CreatorState)
    (r : String × Feature × CreatorState) (h : idHandler spec f st = .ok r) :
    r.2.2.features = st.features ∧ r.2.2.relations = st.relations ∧
      r.2.2.geneLog = st.geneLog := by
  cases spec with
  | str s => exact tryIdKeys_state _ _ _ _ h
  | keys ks => exact tryIdKeys_state _ _ _ _ h
  | byType m =>
    simp only [idHandler] at h
    cases hf : m.find? (fun p => p.1 == f.featuretype) with
    | none => rw [hf] at h; dsimp only at h; cases h; exact ⟨rfl, rfl, rfl⟩
    | some p => rw [hf] at h; exact tryIdKeys_state _ _ _ _ h

theorem doMerge_state (enum : List String → List String) (strategy : String)
    (fs : List Feature) (f : Feature) (lineno : Nat) (item : String)
    (st : CreatorState) (x : Option Feature) (st' : CreatorState)
    (h : doMerge enum strategy fs f lineno item st = .ok (x, st')) :
    st'.features = st.features ∧ st'.relations = st.relations ∧
      st'.geneLog = st.geneLog := by
  unfold doMerge at h
  split_ifs at h
  all_goals try cases h
  all_goals try exact ⟨rfl, rfl, rfl⟩
  cases hf : getFeature fs f.id with
  | none => rw [hf] at h; cases h
  | some existing =>
    rw [hf] at h
    dsimp only at h
    cases hm : firstMismatch existing f with
    | some fld => rw [hm] at h; cases h
    | none => rw [hm] at h; dsimp only at h; cases h; exact ⟨rfl, rfl, rfl⟩

/-! ## Claim C10 — `warning` skips the record yet still links its parents

In `_GFFDBCreator._populate_from_lines` the `Parent` loop
(`create.py:336-343`) runs unconditionally after the insert/conflict block, so
a record dropped by the `warning` policy still contributes level-1 edges
`(P, duplicate_id, 1)` for each of its `Parent` values. -/
/-- **C10.**  Under `merge_strategy='warning'`, when the synthesised id
collides, processing the record leaves `features` exactly as it was — the
record is skipped — yet every `Parent` value `p` of the (post-id-synthesis)
record ends up with a level-1 edge `(p, rid, 1)` in `relations`. -/
theorem C10_warning_skips_record_but_links_parents
    (enum : List String → List String) (spec : IdSpec) (lineno : Nat)
    (f f' : Feature) (st st₁ : CreatorState) (rid : String)
    (hid : idHandler spec f st = .ok (rid, f', st₁))
    (hdup : hasId st₁.features rid = true) :
    ∃ st₂, gffProcessLine enum spec "warning" lineno f st = .ok st₂ ∧
      st₂.features = st₁.features ∧
      st₂.features = st.features ∧
      ∀ p ∈ attrLookup f'.attributes "Parent", (p, rid, 1) ∈ st₂.relations := by
  have hins : insertOrResolveId enum "warning" { f' with id := rid } lineno
      (featureLine { f' with id := rid }) st₁ = .ok (rid, st₁) := by
    unfold insertOrResolveId
    have hcond : hasId st₁.features ({ f' with id := rid }).id = true := hdup
    rw [if_neg (by simp [hcond])]
    rfl
  refine ⟨CreatorState.mk st₁.features
      (insertRelsIgnore st₁.relations
        ((attrLookup f'.attributes "Parent").map (fun p => (p, rid, 1))))
      st₁.autoincrements st₁.geneLog, ?_, rfl, ?_, ?_⟩
  · unfold gffProcessLine
    rw [hid]
    dsimp only
    rw [hins]
  · exact (idHandler_state spec f st _ hid).1
  · intro p hp
    rw [mem_insertRelsIgnore]
    right
    exact List.mem_map.mpr ⟨p, hp, rfl⟩

/-- Witness for `C10_warning_skips_record_but_links_parents` at a concrete
collision: the duplicate record is skipped, `(P, x, 1)` is inserted anyway. -/
theorem C10_warning_skips_record_but_links_parents_witness :
    (idHandler (.str "ID") c10New c10St = .ok ("x", c10New, c10St)) ∧
    (hasId c10St.features "x" = true) ∧
    (∃ st₂, gffProcessLine sortEnum (.str "ID") "warning" 3 c10New c10St =
        .ok st₂ ∧
      st₂.features = c10St.features ∧
      st₂.features = c10St.features ∧
      ∀ p ∈ attrLookup c10New.attributes "Parent", (p, "x", 1) ∈ st₂.relations) :=
  ⟨by decide, by decide,
    C10_warning_skips_record_but_links_parents sortEnum (.str "ID") 3
      c10New c10New c10St c10St "x" (by decide) (by decide)⟩

/-! ## Claim C8 — `id` is unique in `features` -/

theorem insertOrResolveId_nodup (enum : List String → List String)
    (strategy : String) (f : Feature) (lineno : Nat) (item : String)
    (st : CreatorState) (fid : String) (st' : CreatorState)
    (h : insertOrResolveId enum strategy f lineno item st = .ok (fid, st'))
    (hnd : (st.features.map Feature.id).Nodup) :
    (st'.features.map Feature.id).Nodup := by
  unfold insertOrResolveId at h
  by_cases hc : hasId st.features f.id = true
  · rw [if_neg (by simp [hc])] at h
    cases hm : doMerge enum strategy st.features f lineno item st with
    | error e => rw [hm] at h; cases h
    | ok pair =>
      rw [hm] at h
      dsimp only at h
      obtain ⟨fixed?, st₁⟩ := pair
      have hfeat := (doMerge_state enum strategy st.features f lineno item st
        fixed? st₁ hm).1
      by_cases hs1 : (strategy == "merge") = true ∨ (strategy == "replace") = true
      · rw [if_pos hs1] at h
        cases fixed? with
        | some fixed =>
          dsimp only at h
          cases h
          simp only [updateAttrs_map_id, hfeat]
          exact hnd
        | none => dsimp only at h; cases h; rw [hfeat]; exact hnd
      · rw [if_neg hs1] at h
        by_cases hs2 : (strategy == "create_unique") = true
        · rw [if_pos hs2] at h
          cases fixed? with
          | none =>
            dsimp only at h
            cases h
            rw [hfeat]
            exact hnd
          | some fixed =>
            dsimp only at h
            by_cases hc2 : hasId st₁.features fixed.id = true
            · rw [if_pos hc2] at h; cases h
            · rw [if_neg hc2] at h
              cases h
              simp only [List.map_append, List.map_cons, List.map_nil, hfeat]
              rw [List.nodup_append]
              refine ⟨hnd, List.nodup_singleton _, ?_⟩
              intro a ha hb
              simp only [List.mem_singleton] at hb
              subst hb
              rw [hfeat] at hc2
              exact hc2 ((hasId_iff_mem st.features fixed.id).mpr ha)
        · rw [if_neg hs2] at h
          cases h
          rw [hfeat]
          exact hnd
  · rw [if_pos (by simp [hc])] at h
    cases h
    simp only [List.map_append, List.map_cons, List.map_nil]
    rw [List.nodup_append]
    refine ⟨hnd, List.nodup_singleton _, ?_⟩
    intro a ha hb
    simp only [List.mem_singleton] at hb
    subst hb
    exact hc ((hasId_iff_mem st.features f.id).mpr ha)

theorem gffProcessLine_nodup (enum : List String → List String)
    (spec : IdSpec) (strategy : String) (lineno : Nat) (f : Feature)
    (st st' : CreatorState)
    (h : gffProcessLine enum spec strategy lineno f st = .ok st')
    (hnd : (st.features.map Feature.id).Nodup) :
    (st'.features.map Feature.id).Nodup := by
  unfold gffProcessLine at h
  cases hid : idHandler spec f st with
  | error e => rw [hid] at h; cases h
  | ok r =>
    rw [hid] at h
    obtain ⟨rid, f', st₁⟩ := r
    dsimp only at h
    have hnd₁ : (st₁.features.map Feature.id).Nodup := by
      rw [(idHandler_state spec f st _ hid).1]
      exact hnd
    cases hio : insertOrResolveId enum strategy { f' with id := rid } lineno
        (featureLine { f' with id := rid }) st₁ with
    | error e => rw [hio] at h; cases h
    | ok r₂ =>
      rw [hio] at h
      obtain ⟨fid, st₂⟩ := r₂
      dsimp only at h
      cases h
      exact insertOrResolveId_nodup enum strategy _ lineno _ st₁ fid st₂
        hio hnd₁

theorem gffPopulateAux_nodup (enum : List String → List String)
    (spec : IdSpec) (strategy : String) (lines : List Feature) :
    ∀ (n : Nat) (st st' : CreatorState),
      gffPopulateAux enum spec strategy n lines st = .ok st' →
      (st.features.map Feature.id).Nodup →
      (st'.features.map Feature.id).Nodup := by
  induction lines with
  | nil =>
    intro n st st' h hnd
    simp only [gffPopulateAux] at h
    cases h
    exact hnd
  | cons f rest ih =>
    intro n st st' h hnd
    simp only [gffPopulateAux] at h
    cases hp : gffProcessLine enum spec strategy n f st with
    | error e => rw [hp] at h; cases h
    | ok st₁ =>
      rw [hp] at h
      exact ih _ _ _ h (gffProcessLine_nodup _ _ _ _ _ _ _ hp hnd)

theorem gffUpdateRelations_features (st : CreatorState) :
    (gffUpdateRelations st).features = st.features := rfl

theorem gtfProcessLine_nodup (enum : List String → List String)
    (spec : IdSpec) (strategy tk gk : String) (lineno : Nat) (f : Feature)
    (st st' : CreatorState)
    (h : gtfProcessLine enum spec strategy tk gk lineno f st = .ok st')
    (hnd : (st.features.map Feature.id).Nodup) :
    (st'.features.map Feature.id).Nodup := by
  unfold gtfProcessLine at h
  cases hid : idHandler spec f st with
  | error e => rw [hid] at h; cases h
  | ok r =>
    rw [hid] at h
    obtain ⟨rid, f', st₁⟩ := r
    dsimp only at h
    have hnd₁ : (st₁.features.map Feature.id).Nodup := by
      rw [(idHandler_state spec f st _ hid).1]
      exact hnd
    cases hio : insertOrResolveId enum strategy { f' with id := rid } lineno
        (featureLine { f' with id := rid }) st₁ with
    | error e => rw [hio] at h; cases h
    | ok r₂ =>
      rw [hio] at h
      obtain ⟨fid, st₂⟩ := r₂
      dsimp only at h
      have hnd₂ := insertOrResolveId_nodup enum strategy _ lineno _ st₁ fid
        st₂ hio hnd₁
      cases htr : (if attrHasKey ({ f' with id := rid }).attributes tk = true
          then
            match attrLookup ({ f' with id := rid }).attributes tk with
            | [] => (none : Option (String × List Edge))
            | t :: _ => some (t, [(t, fid, 1)])
          else some ("", [])) with
      | none => rw [htr] at h; cases h
      | some pr =>
        rw [htr] at h
        obtain ⟨t, rels₁⟩ := pr
        dsimp only at h
        cases h
        exact hnd₂

theorem gtfPopulateAux_nodup (enum : List String → List String)
    (spec : IdSpec) (strategy tk gk : String) (lines : List Feature) :
    ∀ (n : Nat) (st st' : CreatorState),
      gtfPopulateAux enum spec strategy tk gk n lines st = .ok st' →
      (st.features.map Feature.id).Nodup →
      (st'.features.map Feature.id).Nodup := by
  induction lines with
  | nil =>
    intro n st st' h hnd
    simp only [gtfPopulateAux] at h
    cases h
    exact hnd
  | cons f rest ih =>
    intro n st st' h hnd
    simp only [gtfPopulateAux] at h
    cases hp : gtfProcessLine enum spec strategy tk gk n f st with
    | error e => rw [hp] at h; cases h
    | ok st₁ =>
      rw [hp] at h
      exact ih _ _ _ h (gtfProcessLine_nodup _ _ _ _ _ _ _ _ _ hp hnd)

theorem gtfInsertDerived_nodup (enum : List String → List String)
    (spec : IdSpec) (strategy : String) (recs : List Feature) :
    ∀ (st st' : CreatorState),
      gtfInsertDerived enum spec strategy recs st = .ok st' →
      (st.features.map Feature.id).Nodup →
      (st'.features.map Feature.id).Nodup := by
  induction recs with
  | nil =>
    intro st st' h hnd
    simp only [gtfInsertDerived] at h
    cases h
    exact hnd
  | cons f rest ih =>
    intro st st' h hnd
    simp only [gtfInsertDerived] at h
    cases hid : idHandler spec f st with
    | error e => rw [hid] at h; cases h
    | ok r =>
      rw [hid] at h
      obtain ⟨rid, f', st₁⟩ := r
      dsimp only at h
      have hnd₁ : (st₁.features.map Feature.id).Nodup := by
        rw [(idHandler_state spec f st _ hid).1]
        exact hnd
      by_cases hc : hasId st₁.features ({ f' with id := rid }).id = true
      · rw [if_neg (by simp [hc])] at h
        cases hm : doMerge enum strategy st₁.features { f' with id := rid } 0
            (featureLine { f' with id := rid }) st₁ with
        | error e => rw [hm] at h; cases h
        | ok pair =>
          rw [hm] at h
          dsimp only at h
          obtain ⟨fixed?, st₂⟩ := pair
          cases fixed? with
          | none => cases h
          | some fixed =>
            have hfeat := (doMerge_state enum strategy st₁.features
              { f' with id := rid } 0 (featureLine { f' with id := rid }) st₁
              (some fixed) st₂ hm).1
            refine ih _ _ h ?_
            simp only [updateAttrs_map_id, hfeat]
            exact hnd₁
      · rw [if_pos (by simp [hc])] at h
        refine ih _ _ h ?_
        simp only [List.map_append, List.map_cons, List.map_nil]
        rw [List.nodup_append]
        refine ⟨hnd₁, List.nodup_singleton _, ?_⟩
        intro a ha hb
        simp only [List.mem_singleton] at hb
        subst hb
        exact hc ((hasId_iff_mem st₁.features _).mpr ha)

/-- **C8.**  For every input and every merge strategy, an ingestion (an
`update()` on either driver) that completes without an error preserves the
uniqueness of `id` in `features`: starting from a store with unique ids —
the fresh store of `create()` in particular — every insert path (plain
insert, `create_unique` re-insert, GTF derived-record insertion) re-checks
the primary key, so ids stay pairwise distinct. -/
theorem C8_ids_unique_after_ingestion (enum : List String → List String)
    (specG specT : IdSpec) (strategy tk gk subf : String) (verbose : Bool)
    (linesG linesT : List Feature) (st₀G st₀T stG stT : CreatorState)
    (hndG : (st₀G.features.map Feature.id).Nodup)
    (hndT : (st₀T.features.map Feature.id).Nodup)
    (hg : gffUpdate enum specG strategy verbose linesG st₀G = .ok stG)
    (ht : gtfUpdate enum specT strategy tk gk subf verbose linesT st₀T =
      .ok stT) :
    (stG.features.map Feature.id).Nodup ∧
      (stT.features.map Feature.id).Nodup := by
  constructor
  · unfold gffUpdate gffPopulate at hg
    cases hp : gffPopulateAux enum specG strategy 1 linesG st₀G with
    | error e => rw [hp] at hg; cases hg
    | ok st₁ =>
      rw [hp] at hg
      cases hg
      rw [gffUpdateRelations_features]
      exact gffPopulateAux_nodup enum specG strategy linesG 1 st₀G st₁ hp hndG
  · unfold gtfUpdate gtfPopulate at ht
    cases hp : gtfPopulateAux enum specT strategy tk gk 1 linesT st₀T with
    | error e => rw [hp] at ht; cases ht
    | ok st₁ =>
      rw [hp] at ht
      dsimp only at ht
      by_cases hv : verbose = true ∧ linesT.isEmpty = true
      · rw [if_pos hv] at ht; cases ht
      · rw [if_neg hv] at ht
        dsimp only at ht
        have hnd₁ := gtfPopulateAux_nodup enum specT strategy tk gk linesT 1
          st₀T st₁ hp hndT
        exact gtfInsertDerived_nodup enum specT strategy _ st₁ stT ht hnd₁

/-- Witness for `C8_ids_unique_after_ingestion`: one concrete GFF update and
one concrete GTF update (the latter exercising the derived transcript and
gene records) both end with pairwise-distinct ids. -/
theorem C8_ids_unique_after_ingestion_witness :
    ((CreatorState.init.features.map Feature.id).Nodup ∧
      (CreatorState.init.features.map Feature.id).Nodup ∧
      gffUpdate sortEnum (.str "ID") "merge" false [gLineStart1]
        CreatorState.init = .ok c8StG ∧
      gtfUpdate sortEnum gtfSpecDefault "merge" "transcript_id" "gene_id"
        "exon" false [eLine] CreatorState.init = .ok c8StT) ∧
    ((c8StG.features.map Feature.id).Nodup ∧
      (c8StT.features.map Feature.id).Nodup) :=
  ⟨⟨by decide, by decide, by decide, by decide⟩,
    C8_ids_unique_after_ingestion sortEnum (.str "ID") gtfSpecDefault "merge"
      "transcript_id" "gene_id" "exon" false [gLineStart1] [eLine]
      CreatorState.init CreatorState.init c8StG c8StT
      (by decide) (by decide) (by decide) (by decide)⟩

/-! ## Claim C3 — level-2 edges and their level-1 witnesses -/
theorem insertOrResolveId_state (enum : List String → List String)
    (strategy : String) (f : Feature) (lineno : Nat) (item : String)
    (st : CreatorState) (fid : String) (st' : CreatorState)
    (h : insertOrResolveId enum strategy f lineno item st = .ok (fid, st')) :
    st'.relations = st.relations ∧ st'.geneLog = st.geneLog := by
  unfold insertOrResolveId at h
  by_cases hc : hasId st.features f.id = true
  · rw [if_neg (by simp [hc])] at h
    cases hm : doMerge enum strategy st.features f lineno item st with
    | error e => rw [hm] at h; cases h
    | ok pair =>
      rw [hm] at h
      dsimp only at h
      obtain ⟨fixed?, st₁⟩ := pair
      have hst := doMerge_state enum strategy st.features f lineno item st
        fixed? st₁ hm
      by_cases hs1 : (strategy == "merge") = true ∨ (strategy == "replace") = true
      · rw [if_pos hs1] at h
        cases fixed? with
        | some fixed => dsimp only at h; cases h; exact ⟨hst.2.1, hst.2.2⟩
        | none => dsimp only at h; cases h; exact ⟨hst.2.1, hst.2.2⟩
      · rw [if_neg hs1] at h
        by_cases hs2 : (strategy == "create_unique") = true
        · rw [if_pos hs2] at h
          cases fixed? with
          | none => dsimp only at h; cases h; exact ⟨hst.2.1, hst.2.2⟩
          | some fixed =>
            dsimp only at h
            by_cases hc2 : hasId st₁.features fixed.id = true
            · rw [if_pos hc2] at h; cases h
            · rw [if_neg hc2] at h; cases h; exact ⟨hst.2.1, hst.2.2⟩
        · rw [if_neg hs2] at h
          cases h
          exact ⟨hst.2.1, hst.2.2⟩
  · rw [if_pos (by simp [hc])] at h
    cases h
    exact ⟨rfl, rfl⟩

/-- Shape of one GFF line's effect on `relations`: only level-1 edges are
added, and `geneLog` is untouched. -/
theorem gffProcessLine_shape (enum : List String → List String)
    (spec : IdSpec) (strategy : String) (lineno : Nat) (f : Feature)
    (st st' : CreatorState)
    (h : gffProcessLine enum spec strategy lineno f st = .ok st') :
    ∃ new : List Edge,
      st'.relations = insertRelsIgnore st.relations new ∧
      st'.geneLog = st.geneLog ∧
      ∀ e ∈ new, e.2.2 = 1 := by
  unfold gffProcessLine at h
  cases hid : idHandler spec f st with
  | error e => rw [hid] at h; cases h
  | ok r =>
    rw [hid] at h
    obtain ⟨rid, f', st₁⟩ := r
    dsimp only at h
    have h₁ := idHandler_state spec f st _ hid
    cases hio : insertOrResolveId enum strategy { f' with id := rid } lineno
        (featureLine { f' with id := rid }) st₁ with
    | error e => rw [hio] at h; cases h
    | ok r₂ =>
      rw [hio] at h
      obtain ⟨fid, st₂⟩ := r₂
      dsimp only at h
      have h₂ := insertOrResolveId_state enum strategy _ lineno _ st₁ fid st₂
        hio
      cases h
      refine ⟨(attrLookup ({ f' with id := rid }).attributes "Parent").map
        (fun p => (p, fid, 1)), ?_, ?_, ?_⟩
      · rw [h₂.1, h₁.2.1]
      · rw [h₂.2, h₁.2.2]
      · intro e he
        rcases List.mem_map.mp he with ⟨p, _, rfl⟩
        rfl

/-- Shape of one GTF line's effect: the new edges are level-1 except those
recorded in the `gene_id` ghost log, which grows by exactly those pairs. -/
theorem gtfProcessLine_shape (enum : List String → List String)
    (spec : IdSpec) (strategy tk gk : String) (lineno : Nat) (f : Feature)
    (st st' : CreatorState)
    (h : gtfProcessLine enum spec strategy tk gk lineno f st = .ok st') :
    ∃ (new : List Edge) (log : List (String × String)),
      st'.relations = insertRelsIgnore st.relations new ∧
      st'.geneLog = st.geneLog ++ log ∧
      ∀ e ∈ new, e.2.2 = 1 ∨ (e.1, e.2.1) ∈ log := by
  unfold gtfProcessLine at h
  cases hid : idHandler spec f st with
  | error e => rw [hid] at h; cases h
  | ok r =>
    rw [hid] at h
    obtain ⟨rid, f', st₁⟩ := r
    dsimp only at h
    have h₁ := idHandler_state spec f st _ hid
    cases hio : insertOrResolveId enum strategy { f' with id := rid } lineno
        (featureLine { f' with id := rid }) st₁ with
    | error e => rw [hio] at h; cases h
    | ok r₂ =>
      rw [hio] at h
      obtain ⟨fid, st₂⟩ := r₂
      dsimp only at h
      have h₂ := insertOrResolveId_state enum strategy _ lineno _ st₁ fid st₂
        hio
      by_cases htk : attrHasKey ({ f' with id := rid }).attributes tk = true
      · rw [if_pos htk] at h
        cases hlk : attrLookup ({ f' with id := rid }).attributes tk with
        | nil => rw [hlk] at h; dsimp only at h; cases h
        | cons t ts =>
          rw [hlk] at h
          dsimp only at h
          rw [if_pos htk] at h
          by_cases hgk : attrHasKey ({ f' with id := rid }).attributes gk = true
          · rw [if_pos hgk] at h
            cases hgl : attrLookup ({ f' with id := rid }).attributes gk with
            | nil =>
              rw [hgl] at h
              dsimp only at h
              cases h
              refine ⟨[(t, fid, 1)] ++ [], [], ?_, ?_, ?_⟩
              · rw [h₂.1, h₁.2.1]
              · rw [h₂.2, h₁.2.2]
              · intro e he
                simp only [List.append_nil, List.mem_singleton] at he
                subst he
                exact Or.inl rfl
            | cons g gs =>
              rw [hgl] at h
              dsimp only at h
              cases h
              refine ⟨[(t, fid, 1)] ++ ([(g, fid, 2)] ++ [(g, t, 1)]),
                [(g, fid)], ?_, ?_, ?_⟩
              · rw [h₂.1, h₁.2.1]
              · rw [h₂.2, h₁.2.2]
              · intro e he
                simp only [List.cons_append, List.nil_append,
                  List.mem_cons, List.not_mem_nil, or_false] at he
                rcases he with rfl | rfl | rfl
                · exact Or.inl rfl
                · exact Or.inr (List.mem_singleton.mpr rfl)
                · exact Or.inl rfl
          · rw [if_neg hgk] at h
            dsimp only at h
            cases h
            refine ⟨[(t, fid, 1)] ++ [], [], ?_, ?_, ?_⟩
            · rw [h₂.1, h₁.2.1]
            · rw [h₂.2, h₁.2.2]
            · intro e he
              simp only [List.append_nil, List.mem_singleton] at he
              subst he
              exact Or.inl rfl
      · rw [if_neg htk] at h
        dsimp only at h
        rw [if_neg htk] at h
        by_cases hgk : attrHasKey ({ f' with id := rid }).attributes gk = true
        · rw [if_pos hgk] at h
          cases hgl : attrLookup ({ f' with id := rid }).attributes gk with
          | nil =>
            rw [hgl] at h
            dsimp only at h
            cases h
            refine ⟨[] ++ [], [], ?_, ?_, ?_⟩
            · rw [h₂.1, h₁.2.1]
            · rw [h₂.2, h₁.2.2]
            · intro e he; simp at he
          | cons g gs =>
            rw [hgl] at h
            dsimp only at h
            cases h
            refine ⟨[] ++ ([(g, fid, 2)] ++ []), [(g, fid)], ?_, ?_, ?_⟩
            · rw [h₂.1, h₁.2.1]
            · rw [h₂.2, h₁.2.2]
            · intro e he
              simp only [List.nil_append, List.append_nil,
                List.mem_singleton] at he
              subst he
              exact Or.inr (List.mem_singleton.mpr rfl)
        · rw [if_neg hgk] at h
          dsimp only at h
          cases h
          refine ⟨[] ++ [], [], ?_, ?_, ?_⟩
          · rw [h₂.1, h₁.2.1]
          · rw [h₂.2, h₁.2.2]
          · intro e he; simp at he

theorem gffPopulateAux_shape (enum : List String → List String)
    (spec : IdSpec) (strategy : String) (lines : List Feature) :
    ∀ (n : Nat) (st st' : CreatorState),
      gffPopulateAux enum spec strategy n lines st = .ok st' →
      (∀ e ∈ st'.relations, e ∈ st.relations ∨ e.2.2 = 1) ∧
        st'.geneLog = st.geneLog := by
  induction lines with
  | nil =>
    intro n st st' h
    simp only [gffPopulateAux] at h
    cases h
    exact ⟨fun e he => Or.inl he, rfl⟩
  | cons f rest ih =>
    intro n st st' h
    simp only [gffPopulateAux] at h
    cases hp : gffProcessLine enum spec strategy n f st with
    | error e => rw [hp] at h; cases h
    | ok st₁ =>
      rw [hp] at h
      obtain ⟨new, hrel, hlog, hlvl⟩ :=
        gffProcessLine_shape enum spec strategy n f st st₁ hp
      obtain ⟨hmem, hlog'⟩ := ih _ _ _ h
      refine ⟨?_, by rw [hlog', hlog]⟩
      intro e he
      rcases hmem e he with h1 | h1
      · rw [hrel] at h1
        rcases (mem_insertRelsIgnore new st.relations e).mp h1 with h2 | h2
        · exact Or.inl h2
        · exact Or.inr (hlvl e h2)
      · exact Or.inr h1

theorem gtfPopulateAux_inv (enum : List String → List String)
    (spec : IdSpec) (strategy tk gk : String) (lines : List Feature) :
    ∀ (n : Nat) (st st' : CreatorState),
      gtfPopulateAux enum spec strategy tk gk n lines st = .ok st' →
      (∀ e ∈ st'.relations,
          e ∈ st.relations ∨ e.2.2 = 1 ∨ (e.1, e.2.1) ∈ st'.geneLog) ∧
        (∀ x ∈ st.geneLog, x ∈ st'.geneLog) := by
  induction lines with
  | nil =>
    intro n st st' h
    simp only [gtfPopulateAux] at h
    cases h
    exact ⟨fun e he => Or.inl he, fun x hx => hx⟩
  | cons f rest ih =>
    intro n st st' h
    simp only [gtfPopulateAux] at h
    cases hp : gtfProcessLine enum spec strategy tk gk n f st with
    | error e => rw [hp] at h; cases h
    | ok st₁ =>
      rw [hp] at h
      obtain ⟨new, log, hrel, hlog, hlvl⟩ :=
        gtfProcessLine_shape enum spec strategy tk gk n f st st₁ hp
      obtain ⟨hmem, hmono⟩ := ih _ _ _ h
      have hmono₁ : ∀ x ∈ st.geneLog, x ∈ st'.geneLog := by
        intro x hx
        exact hmono x (by rw [hlog]; exact List.mem_append_left _ hx)
      refine ⟨?_, hmono₁⟩
      intro e he
      rcases hmem e he with h1 | h1
      · rw [hrel] at h1
        rcases (mem_insertRelsIgnore new st.relations e).mp h1 with h2 | h2
        · exact Or.inl h2
        · rcases hlvl e h2 with h3 | h3
          · exact Or.inr (Or.inl h3)
          · refine Or.inr (Or.inr (hmono _ ?_))
            rw [hlog]
            exact List.mem_append_right _ h3
      · exact Or.inr h1

theorem gtfInsertDerived_state (enum : List String → List String)
    (spec : IdSpec) (strategy : String) (recs : List Feature) :
    ∀ (st st' : CreatorState),
      gtfInsertDerived enum spec strategy recs st = .ok st' →
      st'.relations = st.relations ∧ st'.geneLog = st.geneLog := by
  induction recs with
  | nil =>
    intro st st' h
    simp only [gtfInsertDerived] at h
    cases h
    exact ⟨rfl, rfl⟩
  | cons f rest ih =>
    intro st st' h
    simp only [gtfInsertDerived] at h
    cases hid : idHandler spec f st with
    | error e => rw [hid] at h; cases h
    | ok r =>
      rw [hid] at h
      obtain ⟨rid, f', st₁⟩ := r
      dsimp only at h
      have h₁ := idHandler_state spec f st _ hid
      by_cases hc : hasId st₁.features ({ f' with id := rid }).id = true
      · rw [if_neg (by simp [hc])] at h
        cases hm : doMerge enum strategy st₁.features { f' with id := rid } 0
            (featureLine { f' with id := rid }) st₁ with
        | error e => rw [hm] at h; cases h
        | ok pair =>
          rw [hm] at h
          dsimp only at h
          obtain ⟨fixed?, st₂⟩ := pair
          cases fixed? with
          | none => cases h
          | some fixed =>
            have hst := doMerge_state enum strategy st₁.features
              { f' with id := rid } 0 (featureLine { f' with id := rid }) st₁
              (some fixed) st₂ hm
            obtain ⟨hr, hl⟩ := ih _ _ h
            constructor
            · rw [hr]
              show st₂.relations = st.relations
              rw [hst.2.1, h₁.2.1]
            · rw [hl]
              show st₂.geneLog = st.geneLog
              rw [hst.2.2, h₁.2.2]
      · rw [if_pos (by simp [hc])] at h
        obtain ⟨hr, hl⟩ := ih _ _ h
        constructor
        · rw [hr]
          show st₁.relations = st.relations
          rw [h₁.2.1]
        · rw [hl]
          show st₁.geneLog = st.geneLog
          rw [h₁.2.2]

theorem mem_gffUpdateRelations (st : CreatorState) (e : Edge) :
    e ∈ (gffUpdateRelations st).relations ↔
      e ∈ st.relations ∨
        ∃ pc ∈ gffTwoHopPairs st.features st.relations,
          e = (pc.1, pc.2, 2) := by
  show e ∈ insertRelsIgnore st.relations _ ↔ _
  rw [mem_insertRelsIgnore]
  constructor
  · rintro (h | h)
    · exact Or.inl h
    · rcases List.mem_map.mp h with ⟨pc, hpc, rfl⟩
      exact Or.inr ⟨pc, hpc, rfl⟩
  · rintro (h | h)
    · exact Or.inl h
    · rcases h with ⟨pc, hpc, rfl⟩
      exact Or.inr (List.mem_map.mpr ⟨pc, hpc, rfl⟩)

theorem gffTwoHopPairs_mem (fs : List Feature) (rels : List Edge)
    (pc : String × String) (h : pc ∈ gffTwoHopPairs fs rels) :
    ∃ (c : String) (l₁ l₂ : Nat),
      (pc.1, c, l₁) ∈ rels ∧ (c, pc.2, l₂) ∈ rels := by
  unfold gffTwoHopPairs at h
  rcases List.mem_flatMap.mp h with ⟨p, _, h2⟩
  rcases List.mem_flatMap.mp h2 with ⟨e1, he1, h3⟩
  rcases List.mem_map.mp h3 with ⟨e2, he2, rfl⟩
  obtain ⟨he1m, he1p⟩ := List.mem_filter.mp he1
  obtain ⟨he2m, he2p⟩ := List.mem_filter.mp he2
  obtain ⟨a1, b1, l1⟩ := e1
  obtain ⟨a2, b2, l2⟩ := e2
  simp only [beq_iff_eq] at he1p he2p
  refine ⟨b1, l1, l2, ?_, ?_⟩
  · simpa [he1p] using he1m
  · simpa [he2p] using he2m

/-- **C3.**  After a fresh ingestion finishes: in the GFF driver every level-2
edge `(p, g)` has at least one mid-point `c` with `(p, c, 1)` and `(c, g, 1)`
also present; in the GTF driver every level-2 edge was emitted directly by the
first pass from the record's `gene_id` attribute (the claim's exception —
witnessed here by the ghost `geneLog`, which records exactly those
emissions), since the GTF second pass adds no edges at all. -/
theorem C3_level2_edges_have_level1_witnesses
    (enum : List String → List String) (specG specT : IdSpec)
    (strategy tk gk subf : String) (verbose : Bool)
    (linesG linesT : List Feature) (stG stT : CreatorState)
    (hg : gffCreate enum specG strategy verbose linesG = .ok stG)
    (ht : gtfCreate enum specT strategy tk gk subf verbose linesT = .ok stT) :
    (∀ p g, (p, g, 2) ∈ stG.relations →
        ∃ c, (p, c, 1) ∈ stG.relations ∧ (c, g, 1) ∈ stG.relations) ∧
    (∀ p g, (p, g, 2) ∈ stT.relations → (p, g) ∈ stT.geneLog) := by
  constructor
  · unfold gffCreate gffPopulate at hg
    cases hp : gffPopulateAux enum specG strategy 1 linesG CreatorState.init
      with
    | error e => rw [hp] at hg; cases hg
    | ok st₁ =>
      rw [hp] at hg
      cases hg
      have hsh := gffPopulateAux_shape enum specG strategy linesG 1
        CreatorState.init st₁ hp
      have hall1 : ∀ e ∈ st₁.relations, e.2.2 = 1 := by
        intro e he
        rcases hsh.1 e he with h1 | h1
        · cases h1
        · exact h1
      intro p g hpg
      rcases (mem_gffUpdateRelations st₁ _).mp hpg with h1 | h1
      · exact absurd (hall1 _ h1) (by simp)
      · rcases h1 with ⟨pc, hpc, heq⟩
        obtain ⟨c, l₁, l₂, hc1, hc2⟩ :=
          gffTwoHopPairs_mem st₁.features st₁.relations pc hpc
        have hp1 : p = pc.1 := by
          simpa using congrArg Prod.fst heq
        have hg1 : g = pc.2 := by
          have := congrArg (fun x => x.2.1) heq
          simpa using this
        have hl1 : l₁ = 1 := hall1 _ hc1
        have hl2 : l₂ = 1 := hall1 _ hc2
        refine ⟨c, ?_, ?_⟩
        · rw [mem_gffUpdateRelations]
          exact Or.inl (by rw [hp1, ← hl1]; exact hc1)
        · rw [mem_gffUpdateRelations]
          exact Or.inl (by rw [hg1, ← hl2]; exact hc2)
  · unfold gtfCreate gtfPopulate at ht
    cases hp : gtfPopulateAux enum specT strategy tk gk 1 linesT
        CreatorState.init with
    | error e => rw [hp] at ht; cases ht
    | ok st₁ =>
      rw [hp] at ht
      dsimp only at ht
      by_cases hv : verbose = true ∧ linesT.isEmpty = true
      · rw [if_pos hv] at ht; cases ht
      · rw [if_neg hv] at ht
        dsimp only at ht
        have hst := gtfInsertDerived_state enum specT strategy _ st₁ stT ht
        have hinv := gtfPopulateAux_inv enum specT strategy tk gk linesT 1
          CreatorState.init st₁ hp
        intro p g hpg
        rw [hst.1] at hpg
        rcases hinv.1 _ hpg with h1 | h1 | h1
        · cases h1
        · exact absurd h1 (by simp)
        · rw [hst.2]
          exact h1

/-- Witness for `C3_level2_edges_have_level1_witnesses`: the classic
`gene → mRNA → exon` chain on the GFF side (whose `(g1, e1, 2)` edge has the
mid-point `m1`) and a one-exon GTF file on the GTF side (whose level-2 edge
`(G1, exon_1, 2)` came from `gene_id`). -/
theorem C3_level2_edges_have_level1_witnesses_witness :
    (gffCreate sortEnum (.str "ID") "merge" false [c3Gene, c3MRNA, c3Exon] =
        .ok c3StG ∧
      gtfCreate sortEnum gtfSpecDefault "merge" "transcript_id" "gene_id"
        "exon" false [eLine] = .ok c3StT) ∧
    ((∀ p g, (p, g, 2) ∈ c3StG.relations →
        ∃ c, (p, c, 1) ∈ c3StG.relations ∧ (c, g, 1) ∈ c3StG.relations) ∧
      (∀ p g, (p, g, 2) ∈ c3StT.relations → (p, g) ∈ c3StT.geneLog)) :=
  ⟨⟨by decide, by decide⟩,
    C3_level2_edges_have_level1_witnesses sortEnum (.str "ID") gtfSpecDefault
      "merge" "transcript_id" "gene_id" "exon" false [c3Gene, c3MRNA, c3Exon]
      [eLine] c3StG c3StT (by decide) (by decide)⟩

/-! ## Claim C9 — the writer's canonical ordering -/

theorem orderedInsert_map {α β : Type} (f : α → β) (r : α → α → Prop)
    (r' : β → β → Prop) [DecidableRel r] [DecidableRel r']
    (hr : ∀ a b, r' (f a) (f b) ↔ r a b) (x : α) (l : List α) :
    List.orderedInsert r' (f x) (l.map f) =
      (List.orderedInsert r x l).map f := by
  induction l with
  | nil => rfl
  | cons y ys ih =>
    simp only [List.map_cons, List.orderedInsert]
    by_cases h : r x y
    · rw [if_pos ((hr x y).mpr h), if_pos h]
      simp
    · rw [if_neg (fun hc => h ((hr x y).mp hc)), if_neg h]
      simp only [List.map_cons]
      rw [ih]

theorem insertionSort_map {α β : Type} (f : α → β) (r : α → α → Prop)
    (r' : β → β → Prop) [DecidableRel r] [DecidableRel r']
    (hr : ∀ a b, r' (f a) (f b) ↔ r a b) (l : List α) :
    (l.map f).insertionSort r' = (l.insertionSort r).map f := by
  induction l with
  | nil => rfl
  | cons x xs ih =>
    simp only [List.map_cons, List.insertionSort]
    rw [ih, orderedInsert_map f r r' hr]

theorem flatMap_map {α β γ : Type} (l : List α) (f : α → β)
    (g : β → List γ) : (l.map f).flatMap g = l.flatMap (fun a => g (f a)) := by
  induction l with
  | nil => rfl
  | cons x xs ih => simp only [List.map_cons, List.flatMap_cons, ih]

theorem flatMap_congr_mem {α γ : Type} (l : List α) (g₁ g₂ : α → List γ)
    (h : ∀ a ∈ l, g₁ a = g₂ a) : l.flatMap g₁ = l.flatMap g₂ := by
  induction l with
  | nil => rfl
  | cons x xs ih =>
    simp only [List.flatMap_cons]
    rw [h x (List.mem_cons_self x xs), ih (fun a ha => h a (List.mem_cons_of_mem x ha))]

theorem find?_id_of_mem_nodup :
    ∀ (fs : List Feature), (fs.map Feature.id).Nodup →
      ∀ x ∈ fs, fs.find? (fun g => g.id == x.id) = some x := by
  intro fs
  induction fs with
  | nil => intro _ x hx; cases hx
  | cons g rest ih =>
    intro hnd x hx
    simp only [List.map_cons, List.nodup_cons] at hnd
    rcases List.mem_cons.mp hx with rfl | hx'
    · rw [List.find?_cons_of_pos _ (by simp)]
    · by_cases hgx : (g.id == x.id) = true
      · exfalso
        have hmem : x.id ∈ rest.map Feature.id := List.mem_map.mpr ⟨x, hx', rfl⟩
        rw [← (by simpa using hgx : g.id = x.id)] at hmem
        exact hnd.1 hmem
      · rw [List.find?_cons_of_neg _ (by simp [hgx])]
        exact ih hnd.2 x hx'

theorem dbGet_of_mem_nodup (db : FeatureDB)
    (hnd : (db.features.map Feature.id).Nodup) (x : Feature)
    (hx : x ∈ db.features) : dbGet db x.id = some x :=
  find?_id_of_mem_nodup db.features hnd x hx

theorem writeMRNAChildren_eq (db : FeatureDB)
    (hnd : (db.features.map Feature.id).Nodup) (mid : String) :
    writeMRNAChildren db mid =
      ((((childrenAll db mid).filter
          (fun c => c.featuretype == "exon")).insertionSort
            (fun a b => a.start.getD 0 ≤ b.start.getD 0)).flatMap
        (fun e => e :: childrenAll db e.id)) ++
      (childrenAll db mid).filter (fun c => ¬(c.featuretype == "exon")) := by
  unfold writeMRNAChildren
  dsimp only
  congr 1
  rw [insertionSort_map
    (fun c : Feature => (c.id, c.start.getD 0))
    (fun a b => a.start.getD 0 ≤ b.start.getD 0)
    (fun a b => a.2 ≤ b.2)
    (fun a b => Iff.rfl)]
  rw [flatMap_map]
  apply flatMap_congr_mem
  intro e he
  have he' : e ∈ db.features :=
    (List.mem_filter.mp
      (List.mem_filter.mp ((List.mem_insertionSort _).mp he)).1).1
  rw [dbGet_of_mem_nodup db hnd e he']
  rfl

/-- **C9.**  Under unique ids, `write_gene_recs` emits exactly the canonical
order the claim describes: the gene record; each mRNA in decreasing order of
its exon-length sum, immediately followed by its exons in ascending start
order (each with its own children) and then its non-exonic children; finally
the gene's level-1 non-mRNA children. -/
theorem C9_writer_emits_canonical_order (db : FeatureDB) (gene_id : String)
    (hnd : (db.features.map Feature.id).Nodup) :
    writeGeneRecs db gene_id = canonicalGeneRecs db gene_id := by
  unfold writeGeneRecs canonicalGeneRecs
  cases hg : dbGet db gene_id with
  | none => rfl
  | some gene_rec =>
    dsimp only
    congr 2
    rw [insertionSort_map
      (fun m : Feature =>
        (m.id, ((childrenType db m.id "exon").map featLen).sum))
      (fun a b => ((childrenType db b.id "exon").map featLen).sum ≤
        ((childrenType db a.id "exon").map featLen).sum)
      (fun a b => b.2 ≤ a.2)
      (fun a b => Iff.rfl)]
    rw [flatMap_map]
    congr 1
    apply flatMap_congr_mem
    intro m hm
    have hm' : m ∈ db.features :=
      (List.mem_filter.mp
        (List.mem_filter.mp ((List.mem_insertionSort _).mp hm)).1).1
    rw [dbGet_of_mem_nodup db hnd m hm']
    rw [writeMRNAChildren_eq db hnd m.id]
    simp

/-- Witness for `C9_writer_emits_canonical_order`: a gene with two mRNAs
(`m2`'s exon sum 21 beats `m1`'s 10), a CDS under `m1`, and a `tRNA` directly
under the gene comes out as
`[gene, m2, e2, m1, e1, cd1, c1]`. -/
theorem C9_writer_emits_canonical_order_witness :
    ((c9Db.features.map Feature.id).Nodup ∧
      writeGeneRecs c9Db "g1" =
        some [c9G1, c9M2, c9E2, c9M1, c9E1, c9CD1, c9C1]) ∧
    writeGeneRecs c9Db "g1" = canonicalGeneRecs c9Db "g1" :=
  ⟨⟨by decide, by decide⟩,
    C9_writer_emits_canonical_order c9Db "g1" (by decide)⟩

/-! ## Claim C2 — idempotence of a second `merge` ingest -/

/-- When the id resolves without the auto-increment fallback, `_id_handler`
is pure: it returns the resolution and leaves the creator state untouched. -/
theorem resolveKeys_tryIdKeys (ks : List String) :
    ∀ (f : Feature) (r : String × Feature),
      resolveKeys ks f = some r →
      ∀ st, tryIdKeys ks f st = .ok (r.1, r.2, st) := by
  induction ks with
  | nil => intro f r h; cases h
  | cons k rest ih =>
    intro f r h st
    unfold resolveKeys at h
    unfold tryIdKeys
    cases hs : sentinelName k with
    | some name =>
      rw [hs] at h
      dsimp only at h ⊢
      cases hg : getattrField f name with
      | some v =>
        rw [hg] at h
        cases h
        rfl
      | none => rw [hg] at h; cases h
    | none =>
      rw [hs] at h
      dsimp only at h ⊢
      cases hl : attrLookup f.attributes k with
      | nil => rw [hl] at h; exact ih _ _ h st
      | cons v vs =>
        rw [hl] at h
        cases h
        rfl

theorem specResolve_idHandler (spec : IdSpec) (f : Feature)
    (r : String × Feature) (h : specResolve spec f = some r)
    (st : CreatorState) : idHandler spec f st = .ok (r.1, r.2, st) := by
  cases spec with
  | str s => exact resolveKeys_tryIdKeys [s] f r h st
  | keys ks => exact resolveKeys_tryIdKeys ks f r h st
  | byType m =>
    unfold specResolve at h
    unfold idHandler
    dsimp only at h ⊢
    cases hf : m.find? (fun p => p.1 == f.featuretype) with
    | none => rw [hf] at h; cases h
    | some p =>
      rw [hf] at h
      dsimp only
      exact resolveKeys_tryIdKeys p.2 f r h st

/-- **C2, counterexample.**  A record with no `ID` attribute ingests fine
under `merge` — the id falls back to the auto-increment `gene_1` — but the
second ingest of the very same input draws `gene_2` from the still-advancing
counter and *inserts a second row*: `features` is not byte-identical, it has
twice the rows. -/
theorem C2_counterexample_autoincrement_not_idempotent :
    gffCreate sortEnum (.str "ID") "merge" false [c2Auto] = .ok c2St1 ∧
    gffUpdate sortEnum (.str "ID") "merge" false [c2Auto] c2St1 = .ok c2St2 ∧
    c2St2.features ≠ c2St1.features := by
  refine ⟨by decide, by decide, by decide⟩

theorem attrHasKey_of_mem (m : List (String × List String))
    (k : String) (v : List String) (h : (k, v) ∈ m) :
    attrHasKey m k = true := by
  induction m with
  | nil => cases h
  | cons p rest ih =>
    rcases List.mem_cons.mp h with rfl | h'
    · simp [attrHasKey]
    · simp only [attrHasKey, Bool.or_eq_true]
      exact Or.inr (ih h')

theorem attrLookup_of_mem_nodupKeys (m : List (String × List String))
    (hnd : (m.map Prod.fst).Nodup) (k : String) (v : List String)
    (h : (k, v) ∈ m) : attrLookup m k = v := by
  induction m with
  | nil => cases h
  | cons p rest ih =>
    simp only [List.map_cons, List.nodup_cons] at hnd
    rcases List.mem_cons.mp h with rfl | h'
    · simp [attrLookup]
    · have hp : (p.1 == k) = false := by
        simp only [beq_eq_false_iff_ne, ne_eq]
        intro hc
        apply hnd.1
        rw [hc]
        exact List.mem_map.mpr ⟨(k, v), h', rfl⟩
      simp only [attrLookup, hp, Bool.false_eq_true, if_false]
      exact ih hnd.2 h'

theorem attrDelete_sublist (m : List (String × List String)) (k : String) :
    (attrDelete m k).Sublist m := by
  induction m with
  | nil => simp [attrDelete]
  | cons p rest ih =>
    by_cases hp : (p.1 == k) = true
    · simp only [attrDelete, hp, if_true]
      exact ih.cons p
    · simp only [attrDelete, hp, Bool.false_eq_true, if_false]
      exact ih.cons₂ p

/-- The record the candidate loop leaves behind differs from the input only
in its attribute map, which is a sublist (deletions of empty keys). -/
theorem resolveKeys_feature (ks : List String) :
    ∀ (f : Feature) (i : String) (f' : Feature),
      resolveKeys ks f = some (i, f') →
      ∃ m, f' = { f with attributes := m } ∧ m.Sublist f.attributes := by
  induction ks with
  | nil => intro f i f' h; cases h
  | cons k rest ih =>
    intro f i f' h
    unfold resolveKeys at h
    cases hs : sentinelName k with
    | some name =>
      rw [hs] at h
      dsimp only at h
      cases hg : getattrField f name with
      | some v =>
        rw [hg] at h
        cases h
        exact ⟨f.attributes, rfl, List.Sublist.refl _⟩
      | none => rw [hg] at h; cases h
    | none =>
      rw [hs] at h
      dsimp only at h
      cases hl : attrLookup f.attributes k with
      | nil =>
        rw [hl] at h
        obtain ⟨m, hm, hsub⟩ := ih _ _ _ h
        exact ⟨m, hm, hsub.trans (attrDelete_sublist f.attributes k)⟩
      | cons v vs =>
        rw [hl] at h
        cases h
        exact ⟨f.attributes, rfl, List.Sublist.refl _⟩

theorem specResolve_feature (spec : IdSpec) (f : Feature) (i : String)
    (f' : Feature) (h : specResolve spec f = some (i, f')) :
    ∃ m, f' = { f with attributes := m } ∧ m.Sublist f.attributes := by
  cases spec with
  | str s => exact resolveKeys_feature [s] f i f' h
  | keys ks => exact resolveKeys_feature ks f i f' h
  | byType mm =>
    unfold specResolve at h
    dsimp only at h
    cases hf : mm.find? (fun p => p.1 == f.featuretype) with
    | none => rw [hf] at h; cases h
    | some p =>
      rw [hf] at h
      exact resolveKeys_feature p.2 f i f' h

theorem attrReplace_of_not_hasKey (m : List (String × List String))
    (k : String) (v : List String) (h : attrHasKey m k = false) :
    attrReplace m k v = m := by
  induction m with
  | nil => rfl
  | cons p rest ih =>
    simp only [attrHasKey, Bool.or_eq_false_iff] at h
    simp only [attrReplace, h.1, Bool.false_eq_true, if_false]
    rw [ih h.2]

theorem attrReplace_map_fst (m : List (String × List String))
    (k : String) (v : List String) :
    (attrReplace m k v).map Prod.fst = m.map Prod.fst := by
  induction m with
  | nil => rfl
  | cons p rest ih =>
    simp only [attrReplace, List.map_cons]
    rw [ih]
    congr 1
    split <;> rfl

theorem attrSet_keys_nodup (m : List (String × List String))
    (k : String) (v : List String) (hnd : (m.map Prod.fst).Nodup) :
    ((attrSet m k v).map Prod.fst).Nodup := by
  unfold attrSet
  by_cases h : attrHasKey m k = true
  · rw [if_pos h, attrReplace_map_fst]
    exact hnd
  · rw [if_neg h]
    simp only [List.map_append, List.map_cons, List.map_nil]
    rw [List.nodup_append]
    refine ⟨hnd, List.nodup_singleton _, ?_⟩
    intro a ha hb
    simp only [List.mem_singleton] at hb
    subst hb
    exact h ((attrHasKey_iff_mem m a).mpr ha)

theorem attrSet_self (m : List (String × List String)) (k : String)
    (hnd : (m.map Prod.fst).Nodup) (h : attrHasKey m k = true) :
    attrSet m k (attrLookup m k) = m := by
  unfold attrSet
  rw [if_pos h]
  induction m with
  | nil => simp [attrHasKey] at h
  | cons p rest ih =>
    simp only [List.map_cons, List.nodup_cons] at hnd
    by_cases hp : (p.1 == k) = true
    · have hpk : p.1 = k := by simpa using hp
      have hrest : attrHasKey rest k = false := by
        rw [← Bool.not_eq_true, attrHasKey_iff_mem, ← hpk]
        exact hnd.1
      simp only [attrReplace, attrLookup, hp, if_true]
      rw [attrReplace_of_not_hasKey rest k _ hrest]
    · simp only [attrHasKey, Bool.or_eq_true] at h
      have hrest := h.resolve_left (by simpa using hp)
      simp only [attrReplace, attrLookup, hp, Bool.false_eq_true, if_false]
      rw [ih hnd.2 hrest]

theorem enum_idem (enum : List String → List String) (hE : EnumOk enum)
    (xs : List String) : enum (enum xs) = enum xs :=
  hE.2.2 _ _ (hE.1 xs)

theorem mergeValues_absorb (enum : List String → List String)
    (hE : EnumOk enum) (s v : List String)
    (hsub : v.toFinset ⊆ s.toFinset) (hfix : enum s = s) :
    mergeValues enum s v = s := by
  unfold mergeValues
  have : (s ++ v).toFinset = s.toFinset := by
    rw [List.toFinset_append]
    exact Finset.union_eq_left.mpr hsub
  rw [hE.2.2 _ _ this, hfix]

theorem mergeAttrs_id (enum : List String → List String)
    (incoming : List (String × List String)) :
    ∀ acc, (acc.map Prod.fst).Nodup →
      (∀ kv ∈ incoming, attrHasKey acc kv.1 = true ∧
        mergeValues enum (attrLookup acc kv.1) kv.2 = attrLookup acc kv.1) →
      mergeAttrs enum acc incoming = acc := by
  induction incoming with
  | nil => intro acc _ _; rfl
  | cons p rest ih =>
    intro acc hnd hall
    have hp := hall p (List.mem_cons_self p rest)
    show mergeAttrs enum
      (attrSet acc p.1 (mergeValues enum (attrLookup acc p.1) p.2)) rest = acc
    rw [hp.2, attrSet_self acc p.1 hnd hp.1]
    exact ih acc hnd (fun kv hkv => hall kv (List.mem_cons_of_mem p hkv))

theorem attrSet_hasKey_mono (m : List (String × List String))
    (k j : String) (v : List String) (h : attrHasKey m j = true) :
    attrHasKey (attrSet m k v) j = true := by
  rw [attrHasKey_iff_mem] at h ⊢
  unfold attrSet
  by_cases hk : attrHasKey m k = true
  · rw [if_pos hk, attrReplace_map_fst]
    exact h
  · rw [if_neg hk]
    simp only [List.map_append]
    exact List.mem_append_left _ h

theorem attrSet_hasKey_self (m : List (String × List String))
    (k : String) (v : List String) : attrHasKey (attrSet m k v) k = true := by
  rw [attrHasKey_iff_mem]
  unfold attrSet
  by_cases hk : attrHasKey m k = true
  · rw [if_pos hk, attrReplace_map_fst]
    exact (attrHasKey_iff_mem m k).mp hk
  · rw [if_neg hk]
    simp

theorem mergeAttrs_hasKey_mono (enum : List String → List String)
    (incoming : List (String × List String)) :
    ∀ acc j, attrHasKey acc j = true →
      attrHasKey (mergeAttrs enum acc incoming) j = true := by
  induction incoming with
  | nil => intro acc j h; exact h
  | cons p rest ih =>
    intro acc j h
    exact ih _ j (attrSet_hasKey_mono _ _ _ _ h)

theorem mergeAttrs_hasKey_of_incoming (enum : List String → List String)
    (incoming : List (String × List String)) :
    ∀ acc k, attrHasKey incoming k = true →
      attrHasKey (mergeAttrs enum acc incoming) k = true := by
  induction incoming with
  | nil => intro acc k h; simp [attrHasKey] at h
  | cons p rest ih =>
    intro acc k h
    simp only [attrHasKey, Bool.or_eq_true] at h
    rcases h with h | h
    · have hpk : p.1 = k := by simpa using h
      subst hpk
      exact mergeAttrs_hasKey_mono enum rest _ p.1
        (attrSet_hasKey_self _ _ _)
    · exact ih _ k h

theorem mergeAttrs_keys_nodup (enum : List String → List String)
    (incoming : List (String × List String)) :
    ∀ acc, (acc.map Prod.fst).Nodup →
      ((mergeAttrs enum acc incoming).map Prod.fst).Nodup := by
  induction incoming with
  | nil => intro acc h; exact h
  | cons p rest ih =>
    intro acc h
    exact ih _ (attrSet_keys_nodup _ _ _ h)

theorem getFeature_mem (fs : List Feature) (i : String) (r : Feature)
    (h : getFeature fs i = some r) : r ∈ fs ∧ r.id = i := by
  refine ⟨List.mem_of_find?_eq_some h, ?_⟩
  have := List.find?_some h
  simpa using this

theorem hasId_of_getFeature (fs : List Feature) (i : String) (r : Feature)
    (h : getFeature fs i = some r) : hasId fs i = true := by
  obtain ⟨hm, hid⟩ := getFeature_mem fs i r h
  rw [hasId_iff_mem]
  exact List.mem_map.mpr ⟨r, hm, hid⟩

theorem getFeature_none_of_not_hasId (fs : List Feature) (i : String)
    (h : hasId fs i = false) : getFeature fs i = none := by
  unfold getFeature
  rw [List.find?_eq_none]
  intro x hx
  unfold hasId at h
  rw [List.any_eq_false] at h
  exact fun hc => h x hx hc

theorem getFeature_append_self (fs : List Feature) (x : Feature)
    (h : hasId fs x.id = false) : getFeature (fs ++ [x]) x.id = some x := by
  unfold getFeature
  rw [List.find?_append]
  have h1 : getFeature fs x.id = none := getFeature_none_of_not_hasId fs x.id h
  unfold getFeature at h1
  rw [h1]
  simp

theorem getFeature_append_ne (fs : List Feature) (x : Feature) (j : String)
    (h : x.id ≠ j) : getFeature (fs ++ [x]) j = getFeature fs j := by
  unfold getFeature
  rw [List.find?_append]
  cases hf : fs.find? (fun g => g.id == j) with
  | some r => rfl
  | none =>
    simp only [Option.none_or]
    rw [List.find?_cons_of_neg _ (by simp [h]), List.find?_nil]

theorem getFeature_updateAttrs (fs : List Feature) (i : String)
    (a : List (String × List String)) (j : String) :
    getFeature (updateAttrs fs i a) j =
      (getFeature fs j).map
        (fun g => if g.id == i then { g with attributes := a } else g) := by
  induction fs with
  | nil => rfl
  | cons g rest ih =>
    show getFeature ((if g.id == i then { g with attributes := a } else g) ::
      updateAttrs rest i a) j = _
    unfold getFeature
    have hid : (if g.id == i then { g with attributes := a } else g).id =
        g.id := by split <;> rfl
    by_cases hj : (g.id == j) = true
    · have hpos1 : List.find? (fun x : Feature => x.id == j)
          ((if g.id == i then { g with attributes := a } else g) ::
            updateAttrs rest i a) =
          some (if g.id == i then { g with attributes := a } else g) :=
        List.find?_cons_of_pos _ (by rw [hid]; exact hj)
      have hpos2 : List.find? (fun x : Feature => x.id == j) (g :: rest) =
          some g := List.find?_cons_of_pos _ hj
      rw [hpos1, hpos2]
      rfl
    · have hneg1 : List.find? (fun x : Feature => x.id == j)
          ((if g.id == i then { g with attributes := a } else g) ::
            updateAttrs rest i a) =
          List.find? (fun x : Feature => x.id == j) (updateAttrs rest i a) :=
        List.find?_cons_of_neg _ (by rw [hid]; exact hj)
      have hneg2 : List.find? (fun x : Feature => x.id == j) (g :: rest) =
          List.find? (fun x : Feature => x.id == j) rest :=
        List.find?_cons_of_neg _ hj
      rw [hneg1, hneg2]
      exact ih

theorem updateAttrs_id_of_attrs_eq (fs : List Feature) (i : String)
    (a : List (String × List String))
    (h : ∀ g ∈ fs, g.id = i → g.attributes = a) : updateAttrs fs i a = fs := by
  induction fs with
  | nil => rfl
  | cons g rest ih =>
    show (if g.id == i then { g with attributes := a } else g) ::
      updateAttrs rest i a = g :: rest
    rw [ih (fun x hx => h x (List.mem_cons_of_mem g hx))]
    congr 1
    by_cases hg : (g.id == i) = true
    · rw [if_pos hg, ← h g (List.mem_cons_self g rest) (by simpa using hg)]
    · rw [if_neg hg]

theorem feature_eq_of_id_eq (fs : List Feature)
    (hnd : (fs.map Feature.id).Nodup) (g r : Feature) (hg : g ∈ fs)
    (hr : r ∈ fs) (h : g.id = r.id) : g = r := by
  induction fs with
  | nil => cases hg
  | cons x rest ih =>
    simp only [List.map_cons, List.nodup_cons] at hnd
    rcases List.mem_cons.mp hg with rfl | hg'
    · rcases List.mem_cons.mp hr with rfl | hr'
      · rfl
      · exfalso
        apply hnd.1
        rw [h]
        exact List.mem_map.mpr ⟨r, hr', rfl⟩
    · rcases List.mem_cons.mp hr with rfl | hr'
      · exfalso
        apply hnd.1
        rw [← h]
        exact List.mem_map.mpr ⟨g, hg', rfl⟩
      · exact ih hnd.2 hg' hr'

theorem insertRelsIgnore_of_subset (es : List Edge) :
    ∀ rels, (∀ e ∈ es, e ∈ rels) → insertRelsIgnore rels es = rels := by
  induction es with
  | nil => intro rels _; rfl
  | cons e rest ih =>
    intro rels h
    show insertRelsIgnore (insertRelIgnore rels e) rest = rels
    have he : insertRelIgnore rels e = rels := by
      unfold insertRelIgnore
      rw [if_pos (h e (List.mem_cons_self e rest))]
    rw [he]
    exact ih rels (fun x hx => h x (List.mem_cons_of_mem e hx))

/-- Re-processing a line the store has already absorbed (under `merge`) is a
strict no-op. -/
theorem gffProcessLine_noop (enum : List String → List String)
    (spec : IdSpec) (n : Nat) (f : Feature) (st : CreatorState)
    (hE : EnumOk enum) (hnd : (st.features.map Feature.id).Nodup)
    (hgl : GoodLine enum spec st f) :
    gffProcessLine enum spec "merge" n f st = .ok st := by
  obtain ⟨i, f', r, hres, hget, hrknd, hfknd, hmis, hkeys, hpar⟩ := hgl
  have hmid : mergeAttrs enum r.attributes f'.attributes = r.attributes :=
    mergeAttrs_id enum f'.attributes r.attributes hrknd
      (fun kv hkv => ⟨(hkeys kv hkv).1,
        mergeValues_absorb enum hE _ _ (hkeys kv hkv).2.1
          (hkeys kv hkv).2.2⟩)
  have hget' : getFeature st.features ({ f' with id := i } : Feature).id =
      some r := hget
  have hdm : doMerge enum "merge" st.features { f' with id := i } n
      (featureLine { f' with id := i }) st = .ok (some r, st) := by
    unfold doMerge
    simp only [show (("merge" : String) == "error") = false from rfl,
      show (("merge" : String) == "warning") = false from rfl,
      show (("merge" : String) == "replace") = false from rfl,
      show (("merge" : String) == "merge") = true from rfl,
      Bool.false_eq_true, if_false, if_true]
    rw [hget']
    dsimp only
    rw [hmis]
    dsimp only
    rw [show mergeAttrs enum r.attributes
      ({ f' with id := i } : Feature).attributes = r.attributes from hmid]
  have hhas : hasId st.features ({ f' with id := i } : Feature).id = true :=
    hasId_of_getFeature _ _ _ hget'
  have hupd : updateAttrs st.features r.id r.attributes = st.features := by
    apply updateAttrs_id_of_attrs_eq
    intro g hg hgi
    rw [feature_eq_of_id_eq st.features hnd g r hg
      (getFeature_mem _ _ _ hget).1
      (by rw [hgi, (getFeature_mem _ _ _ hget).2])]
  have hio : insertOrResolveId enum "merge" { f' with id := i } n
      (featureLine { f' with id := i }) st = .ok (i, st) := by
    unfold insertOrResolveId
    rw [if_neg (by simp [hhas])]
    rw [hdm]
    dsimp only
    have hc : (("merge" : String) == "merge") = true ∨
        (("merge" : String) == "replace") = true := Or.inl rfl
    rw [if_pos hc]
    rw [hupd]
  have hks : insertRelsIgnore st.relations
      ((attrLookup ({ f' with id := i } : Feature).attributes "Parent").map
        (fun p => (p, i, 1))) = st.relations := by
    apply insertRelsIgnore_of_subset
    intro e he
    rcases List.mem_map.mp he with ⟨p, hp, rfl⟩
    exact hpar p hp
  unfold gffProcessLine
  rw [specResolve_idHandler spec f (i, f') hres st]
  dsimp only
  rw [hio]
  dsimp only
  rw [hks]

theorem gffPopulateAux_noop (enum : List String → List String)
    (spec : IdSpec) (lines : List Feature) (hE : EnumOk enum) :
    ∀ (n : Nat) (st : CreatorState),
      (st.features.map Feature.id).Nodup →
      (∀ f ∈ lines, GoodLine enum spec st f) →
      gffPopulateAux enum spec "merge" n lines st = .ok st := by
  induction lines with
  | nil => intro n st _ _; rfl
  | cons f rest ih =>
    intro n st hnd hall
    show (match gffProcessLine enum spec "merge" n f st with
      | Except.error e => Except.error e
      | Except.ok st' => gffPopulateAux enum spec "merge" (n + 1) rest st') =
      Except.ok st
    rw [gffProcessLine_noop enum spec n f st hE hnd
      (hall f (List.mem_cons_self f rest))]
    exact ih (n + 1) st hnd (fun g hg => hall g (List.mem_cons_of_mem f hg))

theorem firstMismatch_none_iff (a b : Feature) :
    firstMismatch a b = none ↔
      (a.seqid = b.seqid ∧ a.source = b.source ∧
        a.featuretype = b.featuretype ∧ a.start = b.start ∧
        a.fend = b.fend ∧ a.score = b.score ∧ a.strand = b.strand ∧
        a.frame = b.frame) := by
  unfold firstMismatch
  split_ifs <;> simp_all

theorem getFeature_append_found (fs l : List Feature) (i : String)
    (r : Feature) (h : getFeature fs i = some r) :
    getFeature (fs ++ l) i = some r := by
  unfold getFeature at h ⊢
  rw [List.find?_append, h]
  rfl

theorem getFeature_isSome_of_hasId (fs : List Feature) (i : String)
    (h : hasId fs i = true) : ∃ r, getFeature fs i = some r := by
  cases hg : getFeature fs i with
  | some r => exact ⟨r, rfl⟩
  | none =>
    unfold getFeature at hg
    rw [List.find?_eq_none] at hg
    unfold hasId at h
    rw [List.any_eq_true] at h
    obtain ⟨g, hgm, hgp⟩ := h
    exact absurd hgp (by simpa using hg g hgm)

theorem rowEvol_refl (enum : List String → List String) (r : Feature) :
    RowEvol enum r r :=
  ⟨rfl, rfl, rfl, rfl, rfl, rfl, rfl, rfl, id, fun _ h => h,
    fun _ => Finset.Subset.refl _, fun _ h => h⟩

theorem rowEvol_trans (enum : List String → List String) (a b c : Feature)
    (h1 : RowEvol enum a b) (h2 : RowEvol enum b c) : RowEvol enum a c := by
  obtain ⟨e1, e2, e3, e4, e5, e6, e7, e8, e9, e10, e11, e12⟩ := h1
  obtain ⟨g1, g2, g3, g4, g5, g6, g7, g8, g9, g10, g11, g12⟩ := h2
  exact ⟨g1.trans e1, g2.trans e2, g3.trans e3, g4.trans e4, g5.trans e5,
    g6.trans e6, g7.trans e7, g8.trans e8, fun h => g9 (e9 h),
    fun k hk => g10 k (e10 k hk),
    fun k => (e11 k).trans (g11 k), fun k hk => g12 k (e12 k hk)⟩

theorem evol_refl (enum : List String → List String) (st : CreatorState) :
    Evol enum st st :=
  ⟨fun _ r h => ⟨r, h, rowEvol_refl enum r⟩, fun _ h => h⟩

theorem evol_trans (enum : List String → List String) (a b c : CreatorState)
    (h1 : Evol enum a b) (h2 : Evol enum b c) : Evol enum a c := by
  refine ⟨?_, fun e he => h2.2 e (h1.2 e he)⟩
  intro i r h
  obtain ⟨r', h', hrr⟩ := h1.1 i r h
  obtain ⟨r'', h'', hrr'⟩ := h2.1 i r' h'
  exact ⟨r'', h'', rowEvol_trans enum r r' r'' hrr hrr'⟩

theorem GoodLine_mono (enum : List String → List String) (spec : IdSpec)
    (st st' : CreatorState) (f : Feature) (hev : Evol enum st st')
    (hgl : GoodLine enum spec st f) : GoodLine enum spec st' f := by
  obtain ⟨i, f', r, hres, hget, hrknd, hfknd, hmis, hkeys, hpar⟩ := hgl
  obtain ⟨r', hget', hrr⟩ := hev.1 i r hget
  obtain ⟨e1, e2, e3, e4, e5, e6, e7, e8, e9, e10, e11, e12⟩ := hrr
  refine ⟨i, f', r', hres, hget', e9 hrknd, hfknd, ?_, ?_, ?_⟩
  · rw [firstMismatch_none_iff] at hmis ⊢
    exact ⟨e1.trans hmis.1, e2.trans hmis.2.1, e3.trans hmis.2.2.1,
      e4.trans hmis.2.2.2.1, e5.trans hmis.2.2.2.2.1,
      e6.trans hmis.2.2.2.2.2.1, e7.trans hmis.2.2.2.2.2.2.1,
      e8.trans hmis.2.2.2.2.2.2.2⟩
  · intro kv hkv
    obtain ⟨hk1, hk2, hk3⟩ := hkeys kv hkv
    exact ⟨e10 kv.1 hk1, hk2.trans (e11 kv.1), e12 kv.1 hk3⟩
  · intro p hp
    exact hev.2 _ (hpar p hp)

theorem mergeAttrs_rowEvol (enum : List String → List String)
    (hE : EnumOk enum) (r₀ : Feature)
    (incoming : List (String × List String))
    (hind : (incoming.map Prod.fst).Nodup) :
    RowEvol enum r₀
      { r₀ with attributes := mergeAttrs enum r₀.attributes incoming } := by
  refine ⟨rfl, rfl, rfl, rfl, rfl, rfl, rfl, rfl, ?_, ?_, ?_, ?_⟩
  · intro h
    exact mergeAttrs_keys_nodup enum incoming r₀.attributes h
  · intro k hk
    exact mergeAttrs_hasKey_mono enum incoming r₀.attributes k hk
  · intro k
    show (attrLookup r₀.attributes k).toFinset ⊆
      (attrLookup (mergeAttrs enum r₀.attributes incoming) k).toFinset
    rw [attrLookup_mergeAttrs enum incoming r₀.attributes hind k]
    by_cases hk : attrHasKey incoming k = true
    · rw [if_pos hk]
      unfold mergeValues
      rw [hE.1, List.toFinset_append]
      exact Finset.subset_union_left
    · rw [if_neg hk]
  · intro k hfix
    show enum (attrLookup (mergeAttrs enum r₀.attributes incoming) k) =
      attrLookup (mergeAttrs enum r₀.attributes incoming) k
    rw [attrLookup_mergeAttrs enum incoming r₀.attributes hind k]
    by_cases hk : attrHasKey incoming k = true
    · rw [if_pos hk]
      exact enum_idem enum hE _
    · rw [if_neg hk]
      exact hfix

/-- One `merge`-mode GFF line, processed on any store satisfying the running
invariants, (a) evolves the store per `Evol`, (b) keeps all stored rows'
keys duplicate-free, and (c) leaves the line itself fully absorbed. -/
theorem gffProcessLine_step (enum : List String → List String)
    (spec : IdSpec) (n : Nat) (f : Feature) (st st' : CreatorState)
    (hE : EnumOk enum)
    (hrows : RowsOk st)
    (i : String) (f' : Feature)
    (hres : specResolve spec f = some (i, f'))
    (hstab : ∀ kv ∈ f.attributes, enum kv.2 = kv.2)
    (hknd : (f.attributes.map Prod.fst).Nodup)
    (h : gffProcessLine enum spec "merge" n f st = .ok st') :
    Evol enum st st' ∧ RowsOk st' ∧ GoodLine enum spec st' f := by
  obtain ⟨m, hfm, hsub⟩ := specResolve_feature spec f i f' hres
  have hfknd : (f'.attributes.map Prod.fst).Nodup := by
    rw [hfm]
    exact List.Nodup.sublist (hsub.map Prod.fst) hknd
  have hfstab : ∀ kv ∈ f'.attributes, enum kv.2 = kv.2 := by
    intro kv hkv
    rw [hfm] at hkv
    exact hstab kv (hsub.subset hkv)
  unfold gffProcessLine at h
  rw [specResolve_idHandler spec f (i, f') hres st] at h
  dsimp only at h
  by_cases hc : hasId st.features ({ f' with id := i } : Feature).id = true
  · obtain ⟨r₀, hr₀⟩ :=
      getFeature_isSome_of_hasId st.features _ hc
    have hr₀mem := getFeature_mem _ _ _ hr₀
    have hr₀knd : (r₀.attributes.map Prod.fst).Nodup := hrows r₀ hr₀mem.1
    cases hm : firstMismatch r₀ { f' with id := i } with
    | some fld =>
      have hio : insertOrResolveId enum "merge" { f' with id := i } n
          (featureLine { f' with id := i }) st =
          .error (.mergeAssert ({ f' with id := i } : Feature).id n
            (featureLine { f' with id := i })) := by
        unfold insertOrResolveId
        rw [if_neg (by simp [hc])]
        unfold doMerge
        simp only [show (("merge" : String) == "error") = false from rfl,
          show (("merge" : String) == "warning") = false from rfl,
          show (("merge" : String) == "replace") = false from rfl,
          show (("merge" : String) == "merge") = true from rfl,
          Bool.false_eq_true, if_false, if_true]
        rw [hr₀]
        dsimp only
        rw [hm]
      rw [hio] at h
      cases h
    | none =>
      have hio : insertOrResolveId enum "merge" { f' with id := i } n
          (featureLine { f' with id := i }) st =
          .ok (i, CreatorState.mk
            (updateAttrs st.features r₀.id
              (mergeAttrs enum r₀.attributes f'.attributes))
            st.relations st.autoincrements st.geneLog) := by
        unfold insertOrResolveId
        rw [if_neg (by simp [hc])]
        unfold doMerge
        simp only [show (("merge" : String) == "error") = false from rfl,
          show (("merge" : String) == "warning") = false from rfl,
          show (("merge" : String) == "replace") = false from rfl,
          show (("merge" : String) == "merge") = true from rfl,
          Bool.false_eq_true, if_false, if_true]
        rw [hr₀]
        dsimp only
        rw [hm]
        dsimp only
        rw [if_pos (show True ∨ False from Or.inl trivial)]
      rw [hio] at h
      dsimp only at h
      cases h
      have hmrg := mergeAttrs_rowEvol enum hE r₀ f'.attributes hfknd
      have hfeq : ∀ j r, getFeature st.features j = some r →
          getFeature (updateAttrs st.features r₀.id
            (mergeAttrs enum r₀.attributes f'.attributes)) j =
          some (if r.id == r₀.id then
            { r with attributes :=
              mergeAttrs enum r₀.attributes f'.attributes }
            else r) := by
        intro j r hj
        rw [getFeature_updateAttrs, hj]
        rfl
      have hgetmerged : getFeature (updateAttrs st.features r₀.id
          (mergeAttrs enum r₀.attributes f'.attributes)) i =
          some { r₀ with attributes := mergeAttrs enum r₀.attributes f'.attributes } := by
        have hr₀i : getFeature st.features i = some r₀ := hr₀
        have := hfeq i r₀ hr₀i
        rw [this]
        congr 1
        rw [if_pos (by simp)]
      refine ⟨⟨?_, ?_⟩, ?_, ?_⟩
      · -- Evol rows
        intro j r hj
        refine ⟨if r.id == r₀.id then
          { r with attributes :=
            mergeAttrs enum r₀.attributes f'.attributes } else r,
          hfeq j r hj, ?_⟩
        by_cases hrr : (r.id == r₀.id) = true
        · have : r = r₀ := by
            have hji : j = r.id := (getFeature_mem _ _ _ hj).2.symm
            have hri : r₀.id = ({ f' with id := i } : Feature).id :=
              (getFeature_mem _ _ _ hr₀).2
            have hj2 : j = i := by
              rw [hji, (by simpa using hrr : r.id = r₀.id), hri]
            rw [hj2] at hj
            rw [hj] at hr₀
            exact (Option.some.inj hr₀)
          rw [if_pos hrr, this]
          exact hmrg
        · rw [if_neg hrr]
          exact rowEvol_refl enum r
      · -- Evol relations
        intro e he
        dsimp only
        rw [mem_insertRelsIgnore]
        exact Or.inl he
      · -- RowsOk
        intro g hg
        dsimp only at hg
        unfold updateAttrs at hg
        rcases List.mem_map.mp hg with ⟨g₀, hg₀, rfl⟩
        by_cases hgid : (g₀.id == r₀.id) = true
        · rw [if_pos hgid]
          exact mergeAttrs_keys_nodup enum f'.attributes r₀.attributes hr₀knd
        · rw [if_neg hgid]
          exact hrows g₀ hg₀
      · -- GoodLine
        refine ⟨i, f',
          { r₀ with attributes := mergeAttrs enum r₀.attributes f'.attributes },
          hres, hgetmerged,
          mergeAttrs_keys_nodup enum f'.attributes r₀.attributes hr₀knd,
          hfknd, ?_, ?_, ?_⟩
        · rw [firstMismatch_none_iff] at hm ⊢
          exact hm
        · intro kv hkv
          have hlook : attrLookup (mergeAttrs enum r₀.attributes
              f'.attributes) kv.1 =
              mergeValues enum (attrLookup r₀.attributes kv.1) kv.2 := by
            rw [attrLookup_mergeAttrs enum f'.attributes r₀.attributes
              hfknd kv.1]
            rw [if_pos (attrHasKey_of_mem _ _ _ hkv)]
            rw [attrLookup_of_mem_nodupKeys f'.attributes hfknd kv.1 kv.2 hkv]
          refine ⟨?_, ?_, ?_⟩
          · show attrHasKey (mergeAttrs enum r₀.attributes f'.attributes)
              kv.1 = true
            exact mergeAttrs_hasKey_of_incoming enum f'.attributes _ _
              (attrHasKey_of_mem _ _ _ hkv)
          · show kv.2.toFinset ⊆ (attrLookup (mergeAttrs enum r₀.attributes
              f'.attributes) kv.1).toFinset
            rw [hlook]
            unfold mergeValues
            rw [hE.1, List.toFinset_append]
            exact Finset.subset_union_right
          · show enum (attrLookup (mergeAttrs enum r₀.attributes
              f'.attributes) kv.1) = _
            rw [hlook]
            exact enum_idem enum hE _
        · intro p hp
          dsimp only
          rw [mem_insertRelsIgnore]
          exact Or.inr (List.mem_map.mpr ⟨p, hp, rfl⟩)
  · have hio : insertOrResolveId enum "merge" { f' with id := i } n
        (featureLine { f' with id := i }) st =
        .ok (i, { st with features := st.features ++ [{ f' with id := i }] })
        := by
      unfold insertOrResolveId
      rw [if_pos (by simp [hc])]
    rw [hio] at h
    dsimp only at h
    cases h
    have hcfalse : hasId st.features ({ f' with id := i } : Feature).id =
        false := by simpa using hc
    refine ⟨⟨?_, ?_⟩, ?_, ?_⟩
    · intro j r hj
      refine ⟨r, ?_, rowEvol_refl enum r⟩
      exact getFeature_append_found st.features _ j r hj
    · intro e he
      dsimp only
      rw [mem_insertRelsIgnore]
      exact Or.inl he
    · intro g hg
      dsimp only at hg
      rcases List.mem_append.mp hg with hg' | hg'
      · exact hrows g hg'
      · simp only [List.mem_singleton] at hg'
        subst hg'
        exact hfknd
    · refine ⟨i, f', { f' with id := i }, hres, ?_, hfknd, hfknd, ?_, ?_, ?_⟩
      · exact getFeature_append_self st.features _ hcfalse
      · rw [firstMismatch_none_iff]
        exact ⟨rfl, rfl, rfl, rfl, rfl, rfl, rfl, rfl⟩
      · intro kv hkv
        refine ⟨attrHasKey_of_mem _ _ _ hkv, ?_, ?_⟩
        · rw [attrLookup_of_mem_nodupKeys f'.attributes hfknd kv.1 kv.2 hkv]
        · rw [show attrLookup ({ f' with id := i } : Feature).attributes
            kv.1 = kv.2 from
            attrLookup_of_mem_nodupKeys f'.attributes hfknd kv.1 kv.2 hkv]
          exact hfstab kv hkv
      · intro p hp
        dsimp only
        rw [mem_insertRelsIgnore]
        exact Or.inr (List.mem_map.mpr ⟨p, hp, rfl⟩)

theorem gffProcessLine_relations (enum : List String → List String)
    (spec : IdSpec) (strategy : String) (n : Nat) (f : Feature)
    (st st' : CreatorState)
    (h : gffProcessLine enum spec strategy n f st = .ok st') :
    ∀ e ∈ st'.relations, e ∈ st.relations ∨ e.2.2 = 1 := by
  unfold gffProcessLine at h
  cases hid : idHandler spec f st with
  | error e => rw [hid] at h; cases h
  | ok r =>
    rw [hid] at h
    obtain ⟨rid, f', st₁⟩ := r
    dsimp only at h
    cases hio : insertOrResolveId enum strategy { f' with id := rid } n
        (featureLine { f' with id := rid }) st₁ with
    | error e => rw [hio] at h; cases h
    | ok r₂ =>
      rw [hio] at h
      obtain ⟨fid, st₂⟩ := r₂
      dsimp only at h
      cases h
      intro e he
      dsimp only at he
      rw [mem_insertRelsIgnore] at he
      rcases he with he | he
      · left
        have h₂ : st₂.relations = st₁.relations :=
          (insertOrResolveId_state enum strategy _ n _ st₁ fid st₂ hio).1
        have h₁ : st₁.relations = st.relations :=
          (idHandler_state spec f st _ hid).2.1
        rw [h₂, h₁] at he
        exact he
      · right
        rcases List.mem_map.mp he with ⟨p, _, rfl⟩
        rfl

theorem gffPopulateAux_level1 (enum : List String → List String)
    (spec : IdSpec) (strategy : String) (lines : List Feature) :
    ∀ (n : Nat) (st st' : CreatorState),
      gffPopulateAux enum spec strategy n lines st = .ok st' →
      (∀ e ∈ st.relations, e.2.2 = 1) →
      ∀ e ∈ st'.relations, e.2.2 = 1 := by
  induction lines with
  | nil => intro n st st' h hl; cases h; exact hl
  | cons f rest ih =>
    intro n st st' h hl
    simp only [gffPopulateAux] at h
    cases hp : gffProcessLine enum spec strategy n f st with
    | error e => rw [hp] at h; cases h
    | ok st₁ =>
      rw [hp] at h
      refine ih _ _ _ h ?_
      intro e he
      rcases gffProcessLine_relations enum spec strategy n f st st₁ hp e he
        with hm | hm
      · exact hl e hm
      · exact hm

theorem gffPopulateAux_establishes (enum : List String → List String)
    (spec : IdSpec) (hE : EnumOk enum) (lines : List Feature) :
    ∀ (n : Nat) (st st' : CreatorState),
      (∀ f ∈ lines, (specResolve spec f).isSome = true ∧
        (∀ kv ∈ f.attributes, enum kv.2 = kv.2) ∧
        (f.attributes.map Prod.fst).Nodup) →
      RowsOk st →
      gffPopulateAux enum spec "merge" n lines st = .ok st' →
      Evol enum st st' ∧ RowsOk st' ∧
        ∀ f ∈ lines, GoodLine enum spec st' f := by
  induction lines with
  | nil =>
    intro n st st' _ hrows h
    cases h
    exact ⟨evol_refl enum st, hrows, fun f hf => absurd hf (List.not_mem_nil f)⟩
  | cons f rest ih =>
    intro n st st' hlines hrows h
    obtain ⟨hsome, hstab, hknd⟩ := hlines f (List.mem_cons_self f rest)
    rcases Option.isSome_iff_exists.mp hsome with ⟨p, hres⟩
    obtain ⟨i, f'⟩ := p
    simp only [gffPopulateAux] at h
    cases hp : gffProcessLine enum spec "merge" n f st with
    | error e => rw [hp] at h; cases h
    | ok st₁ =>
      rw [hp] at h
      obtain ⟨hev1, hrows1, hgl1⟩ := gffProcessLine_step enum spec n f st st₁
        hE hrows i f' hres hstab hknd hp
      obtain ⟨hev2, hrows2, hall⟩ := ih (n + 1) st₁ st'
        (fun g hg => hlines g (List.mem_cons_of_mem f hg)) hrows1 h
      refine ⟨evol_trans enum st st₁ st' hev1 hev2, hrows2, ?_⟩
      intro g hg
      rcases List.mem_cons.mp hg with rfl | hgm
      · exact GoodLine_mono enum spec st₁ st' g hev2 hgl1
      · exact hall g hgm

theorem mem_gffTwoHopPairs_iff (fs : List Feature) (rels : List Edge)
    (x y : String) :
    (x, y) ∈ gffTwoHopPairs fs rels ↔
      ∃ p ∈ fs, p.id = x ∧
        ∃ m l₁ l₂, (x, m, l₁) ∈ rels ∧ (m, y, l₂) ∈ rels := by
  unfold gffTwoHopPairs
  constructor
  · intro h
    rcases List.mem_flatMap.mp h with ⟨p, hp, h2⟩
    rcases List.mem_flatMap.mp h2 with ⟨e1, he1, h3⟩
    rcases List.mem_map.mp h3 with ⟨e2, he2, heq⟩
    obtain ⟨he1m, he1p⟩ := List.mem_filter.mp he1
    obtain ⟨he2m, he2p⟩ := List.mem_filter.mp he2
    obtain ⟨a1, b1, l1⟩ := e1
    obtain ⟨a2, b2, l2⟩ := e2
    simp only [beq_iff_eq] at he1p he2p
    rw [Prod.mk.injEq] at heq
    obtain ⟨hx, hy⟩ := heq
    refine ⟨p, hp, hx, b1, l1, l2, ?_, ?_⟩
    · rw [← hx, ← he1p]
      exact he1m
    · rw [← he2p, ← hy]
      exact he2m
  · rintro ⟨p, hp, hpx, m, l₁, l₂, h1, h2⟩
    refine List.mem_flatMap.mpr ⟨p, hp, ?_⟩
    refine List.mem_flatMap.mpr
      ⟨(x, m, l₁), List.mem_filter.mpr ⟨h1, ?_⟩, ?_⟩
    · simp [hpx]
    · refine List.mem_map.mpr ⟨(m, y, l₂), List.mem_filter.mpr ⟨h2, ?_⟩, ?_⟩
      · simp
      · simp [hpx]

theorem gffUpdateRelations_evol (enum : List String → List String)
    (st : CreatorState) : Evol enum st (gffUpdateRelations st) := by
  constructor
  · intro i r h
    exact ⟨r, h, rowEvol_refl enum r⟩
  · intro e he
    rw [mem_gffUpdateRelations]
    exact Or.inl he

theorem creatorState_relations_eta (st : CreatorState) (rels : List Edge)
    (h : rels = st.relations) :
    ({ st with relations := rels } : CreatorState) = st := by
  cases h
  rfl

theorem gffUpdateRelations_idem (st : CreatorState)
    (hlvl : ∀ e ∈ st.relations, e.2.2 = 1)
    (hn3 : NoThreePath (gffUpdateRelations st).relations) :
    gffUpdateRelations (gffUpdateRelations st) = gffUpdateRelations st := by
  have hsub : ∀ e ∈ (gffTwoHopPairs (gffUpdateRelations st).features
      (gffUpdateRelations st).relations).map (fun pc => (pc.1, pc.2, 2)),
      e ∈ (gffUpdateRelations st).relations := by
    intro e he
    rcases List.mem_map.mp he with ⟨pc, hpc, rfl⟩
    obtain ⟨x, y⟩ := pc
    rw [show (gffUpdateRelations st).features = st.features from rfl] at hpc
    rw [mem_gffTwoHopPairs_iff] at hpc
    obtain ⟨p, hp, hpx, m, l₁, l₂, h1, h2⟩ := hpc
    rw [mem_gffUpdateRelations]
    have hmem : ∀ e₀ ∈ st.relations, e₀ ∈ (gffUpdateRelations st).relations :=
      fun e₀ h₀ => (mem_gffUpdateRelations st e₀).mpr (Or.inl h₀)
    rcases (mem_gffUpdateRelations st _).mp h1 with h1s | ⟨pc1, hpc1, heq1⟩
    · rcases (mem_gffUpdateRelations st _).mp h2 with h2s | ⟨pc2, hpc2, heq2⟩
      · right
        refine ⟨(x, y), ?_, rfl⟩
        rw [mem_gffTwoHopPairs_iff]
        exact ⟨p, hp, hpx, m, l₁, l₂, h1s, h2s⟩
      · exfalso
        obtain ⟨u2, v2⟩ := pc2
        rw [Prod.mk.injEq, Prod.mk.injEq] at heq2
        obtain ⟨hmu2, hyv2, hl2⟩ := heq2
        dsimp only at hmu2 hyv2
        rw [mem_gffTwoHopPairs_iff] at hpc2
        obtain ⟨q, hq, hqu, d, la, lb, hda, hdb⟩ := hpc2
        rw [← hmu2] at hda
        exact hn3 (x, m, l₁) (hmem _ h1s) (m, d, la) (hmem _ hda)
          (d, v2, lb) (hmem _ hdb) (hlvl _ h1s) (hlvl _ hda) (hlvl _ hdb)
          rfl rfl
    · exfalso
      obtain ⟨u1, v1⟩ := pc1
      rw [Prod.mk.injEq, Prod.mk.injEq] at heq1
      obtain ⟨hxu1, hmv1, hl1⟩ := heq1
      dsimp only at hxu1 hmv1
      rw [mem_gffTwoHopPairs_iff] at hpc1
      obtain ⟨q, hq, hqu, c, la, lb, hca, hcb⟩ := hpc1
      rw [← hxu1] at hca
      rw [← hmv1] at hcb
      rcases (mem_gffUpdateRelations st _).mp h2 with h2s | ⟨pc2, hpc2, heq2⟩
      · exact hn3 (x, c, la) (hmem _ hca) (c, m, lb) (hmem _ hcb)
          (m, y, l₂) (hmem _ h2s) (hlvl _ hca) (hlvl _ hcb) (hlvl _ h2s)
          rfl rfl
      · obtain ⟨u2, v2⟩ := pc2
        rw [Prod.mk.injEq, Prod.mk.injEq] at heq2
        obtain ⟨hmu2, hyv2, hl2⟩ := heq2
        dsimp only at hmu2 hyv2
        rw [mem_gffTwoHopPairs_iff] at hpc2
        obtain ⟨q2, hq2, hqu2, d, lc, ld, hda, hdb⟩ := hpc2
        rw [← hmu2] at hda
        exact hn3 (c, m, lb) (hmem _ hcb) (m, d, lc) (hmem _ hda)
          (d, v2, ld) (hmem _ hdb) (hlvl _ hcb) (hlvl _ hda) (hlvl _ hdb)
          rfl rfl
  exact creatorState_relations_eta (gffUpdateRelations st) _
    (insertRelsIgnore_of_subset _ _ hsub)

/-- **C2 (amended).**  Second-ingest idempotence under `merge` holds with
provisos: when every line's id resolves without the auto-increment fallback,
every attribute value list is a fixpoint of the set enumeration and has
duplicate-free keys, and the store built by the first `create()` has no chain
of three consecutive level-1 edges, then re-ingesting the same input into
that store returns it byte-identically (`features` and `relations` included).
The unconditional claim fails on the auto-increment fallback. -/
theorem C2_second_ingest_is_identity (enum : List String → List String)
    (spec : IdSpec) (verbose : Bool) (lines : List Feature)
    (st1 : CreatorState) (hE : EnumOk enum)
    (hlines : ∀ f ∈ lines, (specResolve spec f).isSome = true ∧
      (∀ kv ∈ f.attributes, enum kv.2 = kv.2) ∧
      (f.attributes.map Prod.fst).Nodup)
    (h1 : gffCreate enum spec "merge" verbose lines = .ok st1)
    (hn3 : NoThreePath st1.relations) :
    gffUpdate enum spec "merge" verbose lines st1 = .ok st1 := by
  unfold gffCreate gffPopulate at h1
  cases hp : gffPopulateAux enum spec "merge" 1 lines CreatorState.init with
  | error e => rw [hp] at h1; cases h1
  | ok st0 =>
    rw [hp] at h1
    dsimp only at h1
    cases h1
    obtain ⟨hev0, hrows, hgood⟩ := gffPopulateAux_establishes enum spec hE
      lines 1 CreatorState.init st0 hlines
      (fun g hg => absurd hg (List.not_mem_nil g)) hp
    have hnd0 : (st0.features.map Feature.id).Nodup :=
      gffPopulateAux_nodup enum spec "merge" lines 1 CreatorState.init st0 hp
        List.nodup_nil
    have hlvl0 : ∀ e ∈ st0.relations, e.2.2 = 1 :=
      gffPopulateAux_level1 enum spec "merge" lines 1 CreatorState.init st0 hp
        (fun e he => absurd he (List.not_mem_nil e))
    have hgood1 : ∀ f ∈ lines,
        GoodLine enum spec (gffUpdateRelations st0) f :=
      fun f hf => GoodLine_mono enum spec st0 (gffUpdateRelations st0) f
        (gffUpdateRelations_evol enum st0) (hgood f hf)
    have hnd1 : ((gffUpdateRelations st0).features.map Feature.id).Nodup :=
      hnd0
    have hpop2 : gffPopulateAux enum spec "merge" 1 lines
        (gffUpdateRelations st0) = .ok (gffUpdateRelations st0) :=
      gffPopulateAux_noop enum spec lines hE 1 (gffUpdateRelations st0)
        hnd1 hgood1
    unfold gffUpdate gffPopulate
    rw [hpop2]
    dsimp only
    rw [gffUpdateRelations_idem st0 hlvl0 hn3]

/-- Witness for `C2_second_ingest_is_identity`: a three-line gene → mRNA →
exon chain ingests to a store which the second ingest returns unchanged. -/
theorem C2_second_ingest_is_identity_witness :
    gffUpdate sortEnum (.str "ID") "merge" false c2wLines c2wSt1 =
      .ok c2wSt1 :=
  C2_second_ingest_is_identity sortEnum (.str "ID") false c2wLines c2wSt1
    enumOk_sortEnum (by decide) (by decide) (by decide)

